import Mathlib

/-!
# Verification of the aofl cache-manager and object-utils modules

Shallow embedding of `cache-manager/modules/cache-manager.js` and of the
`recurseObjectByPath` helper from `@aofl/object-utils`, together with models
of their host primitives (`localStorage`-style string stores, `setInterval`
timers, `JSON.stringify`/`JSON.parse`, and the `tiny-js-md5` hash).

Conventions:
* JavaScript numbers that the module manipulates (timestamps, ttl values)
  are integral in every reachable state, so they are embedded as `Int`.
* 32-bit machine arithmetic inside the hash is `Nat` arithmetic taken
  `% 2^32` explicitly.
* JavaScript exceptions are `Except Unit`; `undefined` at a field access is
  `Option.none`.
-/

set_option maxRecDepth 4096

namespace Aofl

/-! ## MD5 (model of the `tiny-js-md5` dependency)

The cache manager derives storage keys with `md5` from the `tiny-js-md5`
package, which computes standard RFC 1321 MD5 over the UTF-8 bytes of its
argument and formats the digest as 32 lowercase hex characters.  The model
below implements exactly that algorithm. -/

/-- Truncate to a 32-bit word. -/
def w32 (n : Nat) : Nat := n % 4294967296

/-- 32-bit addition. -/
def wadd (a b : Nat) : Nat := w32 (a + b)

/-- 32-bit complement (argument assumed already truncated). -/
def wnot (a : Nat) : Nat := Nat.xor (w32 a) 4294967295

/-- 32-bit left rotation by `s` (for `0 < s < 32`). -/
def wrotl (x s : Nat) : Nat :=
  w32 (Nat.lor (w32 (Nat.shiftLeft (w32 x) s)) (Nat.shiftRight (w32 x) (32 - s)))

/-- The four MD5 round functions. -/
def mdF (b c d : Nat) : Nat := Nat.lor (Nat.land b c) (Nat.land (wnot b) d)
def mdG (b c d : Nat) : Nat := Nat.lor (Nat.land b d) (Nat.land c (wnot d))
def mdH (b c d : Nat) : Nat := Nat.xor b (Nat.xor c d)
def mdI (b c d : Nat) : Nat := Nat.xor c (Nat.lor b (wnot d))

/-- The 64 sine-derived constants `K[i] = floor(2^32 * |sin(i+1)|)`. -/
def mdK : List Nat :=
  [0xd76aa478, 0xe8c7b756, 0x242070db, 0xc1bdceee,
   0xf57c0faf, 0x4787c62a, 0xa8304613, 0xfd469501,
   0x698098d8, 0x8b44f7af, 0xffff5bb1, 0x895cd7be,
   0x6b901122, 0xfd987193, 0xa679438e, 0x49b40821,
   0xf61e2562, 0xc040b340, 0x265e5a51, 0xe9b6c7aa,
   0xd62f105d, 0x02441453, 0xd8a1e681, 0xe7d3fbc8,
   0x21e1cde6, 0xc33707d6, 0xf4d50d87, 0x455a14ed,
   0xa9e3e905, 0xfcefa3f8, 0x676f02d9, 0x8d2a4c8a,
   0xfffa3942, 0x8771f681, 0x6d9d6122, 0xfde5380c,
   0xa4beea44, 0x4bdecfa9, 0xf6bb4b60, 0xbebfbc70,
   0x289b7ec6, 0xeaa127fa, 0xd4ef3085, 0x04881d05,
   0xd9d4d039, 0xe6db99e5, 0x1fa27cf8, 0xc4ac5665,
   0xf4292244, 0x432aff97, 0xab9423a7, 0xfc93a039,
   0x655b59c3, 0x8f0ccc92, 0xffeff47d, 0x85845dd1,
   0x6fa87e4f, 0xfe2ce6e0, 0xa3014314, 0x4e0811a1,
   0xf7537e82, 0xbd3af235, 0x2ad7d2bb, 0xeb86d391]

/-- The per-step left-rotation amounts. -/
def mdS : List Nat :=
  [7, 12, 17, 22, 7, 12, 17, 22, 7, 12, 17, 22, 7, 12, 17, 22,
   5,  9, 14, 20, 5,  9, 14, 20, 5,  9, 14, 20, 5,  9, 14, 20,
   4, 11, 16, 23, 4, 11, 16, 23, 4, 11, 16, 23, 4, 11, 16, 23,
   6, 10, 15, 21, 6, 10, 15, 21, 6, 10, 15, 21, 6, 10, 15, 21]

/-- One of the 64 MD5 steps on state `(a, b, c, d)` with message words `M`. -/
def mdStep (M : List Nat) (st : Nat × Nat × Nat × Nat) (i : Nat) :
    Nat × Nat × Nat × Nat :=
  let (a, b, c, d) := st
  let (f, g) :=
    if i < 16 then (mdF b c d, i)
    else if i < 32 then (mdG b c d, (5 * i + 1) % 16)
    else if i < 48 then (mdH b c d, (3 * i + 5) % 16)
    else (mdI b c d, (7 * i) % 16)
  let t := wadd (wadd (wadd a f) (mdK.getD i 0)) (M.getD g 0)
  (d, wadd b (wrotl t (mdS.getD i 0)), b, c)

/-- Process one 16-word block, adding the mixed state back into the chain. -/
def mdBlock (st : Nat × Nat × Nat × Nat) (M : List Nat) :
    Nat × Nat × Nat × Nat :=
  let (a0, b0, c0, d0) := st
  let (a, b, c, d) := (List.range 64).foldl (mdStep M) st
  (wadd a0 a, wadd b0 b, wadd c0 c, wadd d0 d)

/-- UTF-8 bytes of one character. -/
def utf8Bytes (c : Char) : List Nat :=
  let n := c.toNat
  if n < 0x80 then [n]
  else if n < 0x800 then
    [0xC0 + n / 64, 0x80 + n % 64]
  else if n < 0x10000 then
    [0xE0 + n / 4096, 0x80 + n / 64 % 64, 0x80 + n % 64]
  else
    [0xF0 + n / 262144, 0x80 + n / 4096 % 64, 0x80 + n / 64 % 64, 0x80 + n % 64]

/-- UTF-8 bytes of a string. -/
def strBytes (s : String) : List Nat := s.data.flatMap utf8Bytes

/-- RFC 1321 padding: a `0x80` byte, zeros to 56 mod 64, then the bit length
as eight little-endian bytes. -/
def mdPad (msg : List Nat) : List Nat :=
  let zeros := (64 + 56 - (msg.length + 1) % 64) % 64
  msg ++ [0x80] ++ List.replicate zeros 0 ++
    (List.range 8).map (fun i => (8 * msg.length) >>> (8 * i) % 256)

/-- Split a byte list into 64-byte blocks (structural fuel so that the
kernel can evaluate; `l.length` bounds the number of blocks). -/
def mdChunksF : Nat → List Nat → List (List Nat)
  | 0, _ => []
  | _, [] => []
  | fu + 1, l => l.take 64 :: mdChunksF fu (l.drop 64)

/-- Split a byte list into 64-byte blocks. -/
def mdChunks (l : List Nat) : List (List Nat) := mdChunksF l.length l

/-- Decode a 64-byte block into 16 little-endian 32-bit words. -/
def mdWords (b : List Nat) : List Nat :=
  (List.range 16).map (fun j =>
    b.getD (4 * j) 0 + 256 * b.getD (4 * j + 1) 0 +
    65536 * b.getD (4 * j + 2) 0 + 16777216 * b.getD (4 * j + 3) 0)

/-- A nibble as a lowercase hex character. -/
def hexCh (n : Nat) : Char :=
  if n < 10 then Char.ofNat (48 + n) else Char.ofNat (87 + n)

/-- A byte as two lowercase hex characters. -/
def byteHex (b : Nat) : List Char := [hexCh (b / 16 % 16), hexCh (b % 16)]

/-- A 32-bit word as eight hex characters, little-endian byte order. -/
def wordHex (w : Nat) : List Char :=
  byteHex (w % 256) ++ byteHex (w / 256 % 256) ++
  byteHex (w / 65536 % 256) ++ byteHex (w / 16777216 % 256)

/-- MD5 of a string: 32 lowercase hex characters, as `tiny-js-md5` returns. -/
def md5 (s : String) : String :=
  let blocks := (mdChunks (mdPad (strBytes s))).map mdWords
  let (a, b, c, d) :=
    blocks.foldl mdBlock (0x67452301, 0xefcdab89, 0x98badcfe, 0x10325476)
  ⟨wordHex a ++ wordHex b ++ wordHex c ++ wordHex d⟩

/-! ## JSON values

The values the cache can store (`T` in the spec's Entry Envelope) are the
JSON-serializable JavaScript values: `null`, booleans, numbers, strings,
arrays and plain objects.  Numbers whose value is integral are embedded as
`Int`; non-integral doubles are outside this embedding's value domain. -/

inductive JValue where
  | jnull : JValue
  | jbool : Bool → JValue
  | jnum : Int → JValue
  | jstr : String → JValue
  | jarr : List JValue → JValue
  | jobj : List (String × JValue) → JValue
deriving Repr

/-- Field access `o[k]` on a JavaScript value: `none` is `undefined`
(missing field, or any access on a non-object). -/
def jget (v : JValue) (k : String) : Option JValue :=
  match v with
  | .jobj ms =>
    match ms.find? (fun m => m.1 = k) with
    | some m => some m.2
    | none => none
  | _ => none

/-- `Object.hasOwnProperty.call(v, k)` for the values reachable here. -/
def jhas (v : JValue) (k : String) : Bool :=
  match v with
  | .jobj ms => ms.any (fun m => m.1 = k)
  | _ => false

/-! ## `JSON.stringify` (on the JSON-value domain) -/

/-- Decimal digit characters of `n`, most significant first, onto `acc`. -/
def natChars (n : Nat) (acc : List Char) : List Char :=
  if n < 10 then Char.ofNat (48 + n) :: acc
  else natChars (n / 10) (Char.ofNat (48 + n % 10) :: acc)
termination_by n
decreasing_by omega

/-- The characters `JSON.stringify` emits for an integral number. -/
def intChars (i : Int) : List Char :=
  if i < 0 then '-' :: natChars i.natAbs [] else natChars i.natAbs []

/-- One string character as `JSON.stringify` escapes it: `"` and `\` get a
backslash, the five named control escapes are used, every other control
character becomes `\u00xx`, and all remaining characters stand for
themselves. -/
def escChar (c : Char) : List Char :=
  if c = '"' then ['\\', '"']
  else if c = '\\' then ['\\', '\\']
  else if c = Char.ofNat 8 then ['\\', 'b']
  else if c = Char.ofNat 9 then ['\\', 't']
  else if c = Char.ofNat 10 then ['\\', 'n']
  else if c = Char.ofNat 12 then ['\\', 'f']
  else if c = Char.ofNat 13 then ['\\', 'r']
  else if c.toNat < 32 then
    ['\\', 'u', '0', '0', hexCh (c.toNat / 16), hexCh (c.toNat % 16)]
  else [c]

/-- A quoted, escaped JSON string literal. -/
def strChars (s : String) : List Char :=
  '"' :: (s.data.flatMap escChar ++ ['"'])

mutual

/-- `JSON.stringify`, producing a character list. -/
def serV : JValue → List Char
  | .jnull => ['n', 'u', 'l', 'l']
  | .jbool true => ['t', 'r', 'u', 'e']
  | .jbool false => ['f', 'a', 'l', 's', 'e']
  | .jnum i => intChars i
  | .jstr s => strChars s
  | .jarr [] => ['[', ']']
  | .jarr (e :: es) => '[' :: (serV e ++ serArrTail es ++ [']'])
  | .jobj [] => ['{', '}']
  | .jobj (m :: ms) =>
    '{' :: (strChars m.1 ++ ':' :: serV m.2 ++ serObjTail ms ++ ['}'])

/-- The `,`-prefixed remaining elements of an array literal. -/
def serArrTail : List JValue → List Char
  | [] => []
  | e :: es => ',' :: (serV e ++ serArrTail es)

/-- The `,`-prefixed remaining members of an object literal. -/
def serObjTail : List (String × JValue) → List Char
  | [] => []
  | m :: ms => ',' :: (strChars m.1 ++ ':' :: serV m.2 ++ serObjTail ms)

end

/-- `JSON.stringify` as a `String`. -/
def jsonStringify (v : JValue) : String := ⟨serV v⟩

/-! ## `JSON.parse`

A recursive-descent parser for the JSON grammar over the same value domain
(integral numbers).  Recursion on array/object nesting is by fuel; parse
failure is `none`, the model of a thrown `SyntaxError`. -/

/-- JSON insignificant whitespace. -/
def jws (c : Char) : Bool := c = ' ' || c = '\n' || c = '\t' || c = '\r'

/-- Skip insignificant whitespace. -/
def wsDrop : List Char → List Char
  | c :: cs => if jws c then wsDrop cs else c :: cs
  | [] => []

/-- Is `c` a decimal digit? -/
def jdigit (c : Char) : Bool := 48 ≤ c.toNat && c.toNat ≤ 57

/-- Longest digit run at the head of the input. -/
def digitSpan : List Char → List Char × List Char
  | c :: cs =>
    if jdigit c then
      let (ds, r) := digitSpan cs
      (c :: ds, r)
    else ([], c :: cs)
  | [] => ([], [])

/-- Numeric value of a digit run. -/
def digitsVal (ds : List Char) : Nat :=
  ds.foldl (fun acc c => acc * 10 + (c.toNat - 48)) 0

/-- An integral JSON number: optional minus sign, then at least one digit. -/
def numParse (cs : List Char) : Option (Int × List Char) :=
  match cs with
  | '-' :: r =>
    match digitSpan r with
    | ([], _) => none
    | (ds, r') => some (-(digitsVal ds : Int), r')
  | _ =>
    match digitSpan cs with
    | ([], _) => none
    | (ds, r') => some ((digitsVal ds : Int), r')

/-- Value of one hex digit, if any. -/
def hexVal (c : Char) : Option Nat :=
  if 48 ≤ c.toNat ∧ c.toNat ≤ 57 then some (c.toNat - 48)
  else if 97 ≤ c.toNat ∧ c.toNat ≤ 102 then some (c.toNat - 87)
  else if 65 ≤ c.toNat ∧ c.toNat ≤ 70 then some (c.toNat - 55)
  else none

/-- The single-character escapes `JSON.parse` accepts. -/
def escDecode : Char → Option Char
  | '"' => some '"'
  | '\\' => some '\\'
  | '/' => some '/'
  | 'b' => some (Char.ofNat 8)
  | 'f' => some (Char.ofNat 12)
  | 'n' => some (Char.ofNat 10)
  | 'r' => some (Char.ofNat 13)
  | 't' => some (Char.ofNat 9)
  | _ => none

/-- Body of a string literal, after the opening quote: decoded characters
and the input past the closing quote. -/
def strParse : List Char → Option (List Char × List Char)
  | '"' :: r => some ([], r)
  | '\\' :: 'u' :: a :: b :: c :: d :: r =>
    match hexVal a, hexVal b, hexVal c, hexVal d with
    | some va, some vb, some vc, some vd =>
      match strParse r with
      | some (out, r') =>
        some (Char.ofNat (((va * 16 + vb) * 16 + vc) * 16 + vd) :: out, r')
      | none => none
    | _, _, _, _ => none
  | '\\' :: e :: r =>
    match escDecode e with
    | some ch =>
      match strParse r with
      | some (out, r') => some (ch :: out, r')
      | none => none
    | none => none
  | c :: r =>
    match strParse r with
    | some (out, r') => some (c :: out, r')
    | none => none
  | [] => none

mutual

/-- Parse one JSON value (fuel bounds bracket nesting work). -/
def pVal : Nat → List Char → Option (JValue × List Char)
  | 0, _ => none
  | fu + 1, cs =>
    match wsDrop cs with
    | 'n' :: 'u' :: 'l' :: 'l' :: r => some (.jnull, r)
    | 't' :: 'r' :: 'u' :: 'e' :: r => some (.jbool true, r)
    | 'f' :: 'a' :: 'l' :: 's' :: 'e' :: r => some (.jbool false, r)
    | '"' :: r =>
      match strParse r with
      | some (out, r') => some (.jstr ⟨out⟩, r')
      | none => none
    | '[' :: r =>
      match wsDrop r with
      | ']' :: r' => some (.jarr [], r')
      | r2 =>
        match pElems fu r2 with
        | some (es, r') => some (.jarr es, r')
        | none => none
    | '{' :: r =>
      match wsDrop r with
      | '}' :: r' => some (.jobj [], r')
      | r2 =>
        match pMems fu r2 with
        | some (ms, r') => some (.jobj ms, r')
        | none => none
    | c :: r =>
      if c = '-' || jdigit c then
        match numParse (c :: r) with
        | some (i, r') => some (.jnum i, r')
        | none => none
      else none
    | [] => none

/-- Parse the elements of a nonempty array, including the closing `]`. -/
def pElems : Nat → List Char → Option (List JValue × List Char)
  | 0, _ => none
  | fu + 1, cs =>
    match pVal fu cs with
    | none => none
    | some (v, r) =>
      match wsDrop r with
      | ',' :: r' =>
        match pElems fu r' with
        | some (vs, r'') => some (v :: vs, r'')
        | none => none
      | ']' :: r' => some ([v], r')
      | _ => none

/-- Parse the members of a nonempty object, including the closing `}`. -/
def pMems : Nat → List Char → Option (List (String × JValue) × List Char)
  | 0, _ => none
  | fu + 1, cs =>
    match wsDrop cs with
    | '"' :: r =>
      match strParse r with
      | none => none
      | some (kout, r1) =>
        match wsDrop r1 with
        | ':' :: r2 =>
          match pVal fu r2 with
          | none => none
          | some (v, r3) =>
            match wsDrop r3 with
            | ',' :: r4 =>
              match pMems fu r4 with
              | some (ms, r5) => some ((⟨kout⟩, v) :: ms, r5)
              | none => none
            | '}' :: r4 => some ([(⟨kout⟩, v)], r4)
            | _ => none
        | _ => none
    | _ => none

end

/-- `JSON.parse`: `none` models a thrown `SyntaxError`. -/
def jsonParse (s : String) : Option JValue :=
  match pVal (s.length + 1) s.data with
  | some (v, r) => if wsDrop r = [] then some v else none
  | none => none

mutual

/-- Fuel sufficient for `pVal` to parse this value back. -/
def jfuel : JValue → Nat
  | .jnull => 1
  | .jbool _ => 1
  | .jnum _ => 1
  | .jstr _ => 1
  | .jarr [] => 1
  | .jarr (e :: es) => 1 + jfuelElems (e :: es)
  | .jobj [] => 1
  | .jobj (m :: ms) => 1 + jfuelMems (m :: ms)

/-- Fuel sufficient for `pElems` on a rendered element list. -/
def jfuelElems : List JValue → Nat
  | [] => 0
  | e :: es => 1 + max (jfuel e) (jfuelElems es)

/-- Fuel sufficient for `pMems` on a rendered member list. -/
def jfuelMems : List (String × JValue) → Nat
  | [] => 0
  | m :: ms => 1 + max (jfuel m.2) (jfuelMems ms)

end

/-- A remainder that cannot extend a rendered number: empty or headed by a
non-digit.  Every delimiter the serializer emits after a value (`,`, `]`,
`}`, end of input) qualifies. -/
def noDigitHead : List Char → Bool
  | [] => true
  | c :: _ => !jdigit c

mutual

/-- Object member lists are duplicate-free at every level: exactly the
values that denote a JavaScript object graph (JS objects cannot repeat a
key). -/
def jwf : JValue → Bool
  | .jnull => true
  | .jbool _ => true
  | .jnum _ => true
  | .jstr _ => true
  | .jarr es => jwfElems es
  | .jobj ms => decide ((ms.map Prod.fst).Nodup) && jwfMems ms

/-- `jwf` on each element. -/
def jwfElems : List JValue → Bool
  | [] => true
  | e :: es => jwf e && jwfElems es

/-- `jwf` on each member's value. -/
def jwfMems : List (String × JValue) → Bool
  | [] => true
  | m :: ms => jwf m.2 && jwfMems ms

end

/-! ## Host storage and timers

A Storage-like medium is an insertion-ordered association list, as JS
objects and `localStorage` enumerate string keys in insertion order.
`Store.getItem` yields JS `null` (`JValue.jnull`) for a missing key. -/

structure Store where
  entries : List (String × JValue)
deriving Repr

/-- `storage.getItem(k)`; a missing key is `null`, never an error. -/
def Store.getItem (st : Store) (k : String) : JValue :=
  match st.entries.find? (fun e => e.1 = k) with
  | some e => e.2
  | none => .jnull

/-- `storage.setItem(k, v)`: update in place, or append a new key. -/
def Store.setItem (st : Store) (k : String) (v : JValue) : Store :=
  if st.entries.any (fun e => e.1 = k) then
    ⟨st.entries.map (fun e => if e.1 = k then (k, v) else e)⟩
  else ⟨st.entries ++ [(k, v)]⟩

/-- `storage.removeItem(k)`: a no-op on a missing key. -/
def Store.removeItem (st : Store) (k : String) : Store :=
  ⟨st.entries.filter (fun e => ¬(e.1 = k))⟩

/-- The medium's keys, in enumeration order. -/
def Store.keys (st : Store) : List String := st.entries.map Prod.fst

/-- The possible values of the `this.interval` field: `undefined` before the
first scheduling, a timer id from `setInterval`, or `null` after
`destruct`. -/
inductive TimerRef where
  | undef : TimerRef
  | jsnull : TimerRef
  | tid : Nat → TimerRef
deriving Repr, DecidableEq

/-- The host's interval-timer table: the active `(id, delayMillis)` pairs
and the next fresh id. -/
structure Timers where
  active : List (Nat × Int)
  nextId : Nat
deriving Repr

/-- `setInterval(cb, delay)`: registers a recurring task, returns its id. -/
def Timers.setI (tm : Timers) (delay : Int) : Nat × Timers :=
  (tm.nextId, ⟨tm.active ++ [(tm.nextId, delay)], tm.nextId + 1⟩)

/-- `clearInterval(x)`: cancels the timer with id `x`; a no-op on anything
that is not a live id (including `undefined`). -/
def Timers.clearI (tm : Timers) (r : TimerRef) : Timers :=
  match r with
  | .tid n => ⟨tm.active.filter (fun e => ¬(e.1 = n)), tm.nextId⟩
  | _ => tm

/-- The ids of the currently scheduled recurring tasks. -/
def Timers.ids (tm : Timers) : List Nat := tm.active.map Prod.fst

/-! ## The CacheManager façade -/

/-- Modelled from the spec: `cache-type-enumerate.js` is not under `src/`.
Per §6 the recognized storage selectors are exactly in-memory,
local-persistent and session-persistent; they are embedded as three
distinct constants. -/
def cacheTypeMemory : Nat := 0

/-- The local-persistent (`localStorage`) selector. -/
def cacheTypeLocal : Nat := 1

/-- The session-persistent (`sessionStorage`) selector. -/
def cacheTypeSession : Nat := 2

/-- `STORAGE[storageType] !== undefined`: the lookup in the module-level
`STORAGE` map succeeds exactly on the three enumerated selectors. -/
def storageDefined (t : Nat) : Bool :=
  t = cacheTypeMemory || t = cacheTypeLocal || t = cacheTypeSession

/-- The two text-based persistent media, whose envelopes are serialized. -/
def isTextStorage (t : Nat) : Bool :=
  t = cacheTypeLocal || t = cacheTypeSession

/-- `MAX_SIGNED_INT` from the source. -/
def MAX_SIGNED_INT : Int := 2147483647

/-- Instance state of `CacheManager`.  `nsp` is the `namespace` field (a
Lean keyword).  `expire` is the JS number or `null` (`none`); no other
value is ever assigned to it by the embedded program.  `hasStorage`
records whether `this.storage` is defined (it is `undefined` exactly when
the constructor's selector was unrecognized). -/
structure CacheManager where
  nsp : String
  storageType : Nat
  hasStorage : Bool
  storedKeys : List String
  expire : Option Int
  interval : TimerRef
deriving Repr

/-- `getStoredKeys()`: scan the medium for keys with this instance's
namespace prefix (`key.indexOf(this.namespace + '_') === 0`).  A `for..in`
over an `undefined` storage iterates zero times. -/
def getStoredKeysF (hasStorage : Bool) (nsp : String) (store : Store) :
    List String :=
  if hasStorage then
    (Store.keys store).filter (fun k => (nsp ++ "_").data.isPrefixOf k.data)
  else []

/-- `getNamespaceKey(key)`: pass an already-tracked key through unchanged,
otherwise derive `namespace + '_' + md5(key)`. -/
def getNamespaceKey (cm : CacheManager) (key : String) : String :=
  if key ∈ cm.storedKeys then key
  else cm.nsp ++ "_" ++ md5 key

/-- The `expire` setter: record the value, clear any previous interval
(the `!== null` guard also lets the initial `undefined` through, where
`clearInterval` is a no-op), then schedule a recurring `removeExpired`
exactly when `value > 0 && value < MAX_SIGNED_INT`.  JS `>`/`<` on `null`
are false. -/
def setExpire (cm : CacheManager) (tm : Timers) (value : Option Int) :
    CacheManager × Timers :=
  let cm1 := { cm with expire := value }
  let tm1 := if cm1.interval ≠ TimerRef.jsnull then tm.clearI cm1.interval else tm
  match value with
  | some n =>
    if 0 < n ∧ n < MAX_SIGNED_INT then
      let (id, tm2) := tm1.setI n
      ({ cm1 with interval := .tid id }, tm2)
    else (cm1, tm1)
  | none => (cm1, tm1)

/-- The constructor.  `STORAGE[storageType]` is `undefined` on an
unrecognized selector, which does not throw: `getStoredKeys` then scans
nothing and the instance is created regardless. -/
def construct (nsp : String) (store : Store) (tm : Timers)
    (storageType : Nat := cacheTypeMemory)
    (expire : Option Int := some 3600000) : CacheManager × Timers :=
  let hasStorage := storageDefined storageType
  let cm0 : CacheManager :=
    { nsp := nsp, storageType := storageType, hasStorage := hasStorage,
      storedKeys := getStoredKeysF hasStorage nsp store,
      expire := none, interval := .undef }
  setExpire cm0 tm expire

/-- The stored Entry Envelope `{t: Date.now(), v: value}`. -/
def envelope (now : Int) (value : JValue) : JValue :=
  .jobj [("t", .jnum now), ("v", value)]

/-- `setItem(key, value)` on an instance whose storage is defined. -/
def setItemRaw (cm : CacheManager) (store : Store) (now : Int)
    (key : String) (value : JValue) : CacheManager × Store :=
  let obj := envelope now value
  let obj := if isTextStorage cm.storageType then
      JValue.jstr (jsonStringify obj)
    else obj
  let nk := getNamespaceKey cm key
  ({ cm with storedKeys := cm.storedKeys ++ [nk] }, store.setItem nk obj)

/-- `setItem` with the JS failure mode: `this.storage.setItem` throws a
`TypeError` when the storage is `undefined` (before any mutation). -/
def setItemJS (cm : CacheManager) (store : Store) (now : Int)
    (key : String) (value : JValue) : Except Unit (CacheManager × Store) :=
  if cm.hasStorage then .ok (setItemRaw cm store now key value)
  else .error ()

/-- `removeItem(key)`: derive the storage key; if tracked, delete it from
the medium and drop the first matching occurrence from the tracked list
(`indexOf` + `splice(index, 1)`); otherwise do nothing. -/
def removeItemRaw (cm : CacheManager) (store : Store) (key : String) :
    CacheManager × Store :=
  let nk := getNamespaceKey cm key
  if nk ∈ cm.storedKeys then
    ({ cm with storedKeys := cm.storedKeys.erase nk }, store.removeItem nk)
  else (cm, store)

/-- `JSON.parse` applied to a raw storage read, as in the unguarded call in
`getItem`.  `null` stringifies to `"null"` and parses back to `null`;
a stored string is parsed (a `SyntaxError` is `.error`).  Text media hold
only strings and `null` reads, so the remaining coercion cases (numbers
and booleans round-tripping through `String(x)`, aggregates failing) are
unreachable through this module but modelled anyway. -/
def jsonParseJS : JValue → Except Unit JValue
  | .jnull => .ok .jnull
  | .jstr s =>
    match jsonParse s with
    | some w => .ok w
    | none => .error ()
  | .jnum n => .ok (.jnum n)
  | .jbool b => .ok (.jbool b)
  | _ => .error ()

/-- The guarded parse in `isExpired`: `try { obj = JSON.parse(obj) } catch
(e) {}` keeps the previous value of `obj` on failure. -/
def tryParse (v : JValue) : JValue :=
  match jsonParseJS v with
  | .ok w => w
  | .error _ => v

/-- Is this JS value `null`? -/
def isNull : JValue → Bool
  | .jnull => true
  | _ => false

/-- The comparison `x < bound` where `x` is a field access: false when `x`
is `undefined` or (for the shapes this module writes) not a number. -/
def jltNum (x : Option JValue) (bound : Int) : Bool :=
  match x with
  | some (.jnum t) => t < bound
  | _ => false

/-- `isExpired(key)`: nothing expires unless ttl is a positive number;
otherwise read the raw entry (parsing guardedly on text media) and report
`obj === null || obj.t < Date.now() - this.expire`. -/
def isExpired (cm : CacheManager) (store : Store) (now : Int)
    (key : String) : Bool :=
  match cm.expire with
  | none => false
  | some e =>
    if e ≤ 0 then false
    else
      let nk := getNamespaceKey cm key
      let obj0 := store.getItem nk
      let obj := if isTextStorage cm.storageType then tryParse obj0 else obj0
      if isNull obj then true
      else jltNum (jget obj "t") (now - e)

/-- `getItem(key)`: read, parse unguardedly on text media (the result is
`.error` on a malformed payload — there is no `try` here), then either
remove-and-miss on expiry, unwrap `.v` from a recognized envelope, or pass
the raw value through.  The returned `Option JValue` is the JS result with
`none` for `undefined`. -/
def getItemJS (cm : CacheManager) (store : Store) (now : Int)
    (key : String) :
    Except Unit (Option JValue × CacheManager × Store) :=
  if cm.hasStorage then
    let nk := getNamespaceKey cm key
    let obj0 := store.getItem nk
    let parsed : Except Unit JValue :=
      if isTextStorage cm.storageType then jsonParseJS obj0 else .ok obj0
    match parsed with
    | .error e => .error e
    | .ok obj =>
      if ¬isNull obj && jhas obj "t" then
        if isExpired cm store now key then
          let p := removeItemRaw cm store key
          .ok (some .jnull, p.1, p.2)
        else .ok (jget obj "v", cm, store)
      else .ok (some obj, cm, store)
  else .error ()

/-- The body of `removeExpired()`: a `for` loop by index over the live
`this.storedKeys` array; removal splices the array the loop is indexing.
The loop condition `i < this.storedKeys.length` re-reads the live array;
structural fuel makes the recursion kernel-evaluable.  `removeItem` never
lengthens the array and `i` grows each pass, so fuel equal to the array's
length at entry is never exhausted before the condition fails. -/
def removeExpiredLoop : Nat → Int → CacheManager → Store → Nat →
    CacheManager × Store
  | 0, _, cm, store, _ => (cm, store)
  | fu + 1, now, cm, store, i =>
    if h : i < cm.storedKeys.length then
      let k := cm.storedKeys.get ⟨i, h⟩
      if isExpired cm store now k then
        let p := removeItemRaw cm store k
        removeExpiredLoop fu now p.1 p.2 (i + 1)
      else removeExpiredLoop fu now cm store (i + 1)
    else (cm, store)

/-- `removeExpired()`. -/
def removeExpired (now : Int) (cm : CacheManager) (store : Store) :
    CacheManager × Store :=
  removeExpiredLoop cm.storedKeys.length now cm store 0

/-- `clear()`: remove every tracked key from the medium, then empty the
tracked list.  (The loop body touches only the medium, so plain folding is
faithful.) -/
def clearRaw (cm : CacheManager) (store : Store) : CacheManager × Store :=
  ({ cm with storedKeys := [] },
   cm.storedKeys.foldl Store.removeItem store)

/-- The body of `getCollection()` after the re-scan: a `for` loop by index
over the live `this.storedKeys`, skipping expired keys and reading the
rest through `getItem` (whose parse step can throw).  Fuel as in
`removeExpiredLoop`: `getItem` never lengthens the tracked list, so fuel
equal to the list's length at entry is never exhausted. -/
def getCollectionLoop : Nat → Int → CacheManager → Store → Nat →
    List (String × Option JValue) →
    Except Unit (List (String × Option JValue) × CacheManager × Store)
  | 0, _, cm, store, _, acc => .ok (acc, cm, store)
  | fu + 1, now, cm, store, i, acc =>
    if h : i < cm.storedKeys.length then
      let k := cm.storedKeys.get ⟨i, h⟩
      if isExpired cm store now k then
        getCollectionLoop fu now cm store (i + 1) acc
      else
        match getItemJS cm store now k with
        | .error e => .error e
        | .ok (v, cm', store') =>
          getCollectionLoop fu now cm' store' (i + 1) (acc ++ [(k, v)])
    else .ok (acc, cm, store)

/-- `getCollection()`: refresh the tracked list by re-scanning the medium,
then collect the fresh entries. -/
def getCollectionJS (cm : CacheManager) (store : Store) (now : Int) :
    Except Unit (List (String × Option JValue) × CacheManager × Store) :=
  let cm1 := { cm with
    storedKeys := getStoredKeysF cm.hasStorage cm.nsp store }
  getCollectionLoop cm1.storedKeys.length now cm1 store 0 []

/-- `destruct()`: cancel the interval and null every field.  The nulled
string/number fields leave the model's domain, so only the parts the
claims observe (the timers and the interval field) are produced. -/
def destructTimers (cm : CacheManager) (tm : Timers) : Timers :=
  tm.clearI cm.interval

/-! ## Operation sequences over a shared medium

`stepOp` applies one caller-visible façade operation (or a background
sweep).  A thrown `getItem`/`getCollection` (malformed text payload)
propagates in JS; the state it leaves behind is the state at the throw
point, which the loop models produce. -/

inductive CacheOp where
  | opSet : String → JValue → Int → CacheOp
  | opGet : String → Int → CacheOp
  | opRemove : String → CacheOp
  | opClear : CacheOp
  | opCollect : Int → CacheOp
  | opSweep : Int → CacheOp

/-- Apply one operation to an instance over its medium. -/
def stepOp (cm : CacheManager) (store : Store) : CacheOp → CacheManager × Store
  | .opSet k v now => setItemRaw cm store now k v
  | .opGet k now =>
    match getItemJS cm store now k with
    | .ok out => (out.2.1, out.2.2)
    | .error _ => (cm, store)
  | .opRemove k => removeItemRaw cm store k
  | .opClear => clearRaw cm store
  | .opCollect now =>
    let cm1 := { cm with
      storedKeys := getStoredKeysF cm.hasStorage cm.nsp store }
    match getCollectionLoop cm1.storedKeys.length now cm1 store 0 [] with
    | .ok out => (out.2.1, out.2.2)
    | .error _ => (cm1, store)
  | .opSweep now => removeExpired now cm store

/-- Two CacheManager instances sharing one storage medium. -/
structure Sys2 where
  cm1 : CacheManager
  cm2 : CacheManager
  store : Store

/-- An operation issued against the first or the second instance. -/
inductive SysOp where
  | fstOp : CacheOp → SysOp
  | sndOp : CacheOp → SysOp

/-- One interleaving step. -/
def sysStep (s : Sys2) : SysOp → Sys2
  | .fstOp op =>
    let p := stepOp s.cm1 s.store op
    ⟨p.1, s.cm2, p.2⟩
  | .sndOp op =>
    let p := stepOp s.cm2 s.store op
    ⟨s.cm1, p.1, p.2⟩

/-- Run a whole interleaved operation sequence. -/
def sysRun (s : Sys2) : List SysOp → Sys2
  | [] => s
  | op :: ops => sysRun (sysStep s op) ops

/-- The storage keys at which the first instance's `setItem` writes along
a run. -/
def writtenKeys1 (s : Sys2) : List SysOp → List String
  | [] => []
  | op :: ops =>
    (match op with
     | .fstOp (.opSet k _ _) => [getNamespaceKey s.cm1 k]
     | _ => []) ++ writtenKeys1 (sysStep s op) ops

/-! ## `recurseObjectByPath` (object-utils) -/

/-- Does `pat` occur as a contiguous substring of `s`?  (`RegExp.test`
with a literal alternation is substring search.) -/
def hasSub : List Char → List Char → Bool
  | [], pat => pat.isPrefixOf []
  | s@(_ :: t), pat => pat.isPrefixOf s || hasSub t pat

/-- `isPrototypePolluted(key)`: `/__proto__|constructor|prototype/.test(key)`. -/
def isPrototypePolluted (key : String) : Bool :=
  hasSub key.data "__proto__".data ||
  hasSub key.data "constructor".data ||
  hasSub key.data "prototype".data

/-- A deep embedding of the `op` callback's terminating behaviours: return
a JS value (`none` = `undefined`), or call the `recurse` argument the
wrapper passed in on a chosen path and source, continuing with its
result. -/
inductive OpProg where
  | ret : Option JValue → OpProg
  | call : List String → JValue → (Option JValue → OpProg) → OpProg

/-- The callback itself: behaviour as a function of `(key, subPath, source)`. -/
def OpFun : Type := String → List String → JValue → OpProg

mutual

/-- One activation of the inner `recurse(argPathParts, source)`: take the
head segment (default `''`) and tail, return `undefined` if the segment is
polluted, otherwise run `op`.  Also returns the `key` arguments with which
`op` was invoked, in order.  `fuel` bounds the call depth, which the JS
does not. -/
def recurseGo : Nat → OpFun → List String → JValue →
    Option JValue × List String
  | 0, _, _, _ => (none, [])
  | fu + 1, op, argPathParts, source =>
    let key := match argPathParts with
      | [] => ""
      | k :: _ => k
    let subPath := match argPathParts with
      | [] => []
      | _ :: t => t
    if isPrototypePolluted key then (none, [])
    else
      let r := runOp fu op (op key subPath source)
      (r.1, key :: r.2)

/-- Execute the callback's behaviour, dispatching its `recurse` calls back
through `recurseGo`. -/
def runOp : Nat → OpFun → OpProg → Option JValue × List String
  | _, _, .ret v => (v, [])
  | 0, _, .call _ _ _ => (none, [])
  | fu + 1, op, .call path src k =>
    let r1 := recurseGo fu op path src
    let r2 := runOp fu op (k r1.1)
    (r2.1, r1.2 ++ r2.2)

end

/-- `recurseObjectByPath(obj, path, op)`: split the path on `.` (an empty
path stands for no segments) and start the recursion. -/
def recurseObjectByPath (fuel : Nat) (obj : JValue) (path : String)
    (op : OpFun) : Option JValue × List String :=
  let pathParts := if path = "" then [] else path.splitOn "."
  recurseGo fuel op pathParts obj

/-- A fresh in-memory instance over an empty medium and timer table. -/
def cmFresh : CacheManager :=
  (construct "a" ⟨[]⟩ ⟨[], 0⟩).1

/-- Every tracked key carries the instance's namespace prefix. -/
def nsKeyed (cm : CacheManager) : Prop :=
  ∀ k ∈ cm.storedKeys, (cm.nsp ++ "_").data.isPrefixOf k.data = true

/-- Run a sequence of operations on a single instance over its medium. -/
def run1 (cm : CacheManager) (store : Store) :
    List CacheOp → CacheManager × Store
  | [] => (cm, store)
  | op :: ops =>
    let p := stepOp cm store op
    run1 p.1 p.2 ops

/-! ## C10: the pollution guard -/

mutual

/-- Every `key` the wrapper hands to `op` passed the guard. -/
theorem recurseGo_guard : ∀ (fu : Nat) (op : OpFun) (parts : List String)
    (src : JValue),
    ((recurseGo fu op parts src).2).all
      (fun k => !isPrototypePolluted k) = true
  | 0, op, parts, src => by simp [recurseGo]
  | fu + 1, op, parts, src => by
    simp only [recurseGo]
    by_cases hp :
        isPrototypePolluted (match parts with | [] => "" | k :: _ => k) = true
    · simp [hp]
    · simp only [Bool.not_eq_true] at hp
      simp [hp, runOp_guard fu]

/-- The executed callback behaviour only reaches `op` through the guard. -/
theorem runOp_guard : ∀ (fu : Nat) (op : OpFun) (prog : OpProg),
    ((runOp fu op prog).2).all (fun k => !isPrototypePolluted k) = true
  | _, op, .ret v => by simp [runOp]
  | 0, op, .call p s k => by simp [runOp]
  | fu + 1, op, .call p s k => by
    simp [runOp, List.all_append, recurseGo_guard fu, runOp_guard fu]

end

/-- C10: for every object, path, operation callback, and call-depth bound,
`recurseObjectByPath` never invokes the callback with a path segment
containing `__proto__`, `constructor`, or `prototype`; recursion on such a
segment returns `undefined` without performing the operation. -/
theorem recurseObjectByPath_pollution_guard (fuel : Nat) (obj : JValue)
    (path : String) (op : OpFun) :
    ((recurseObjectByPath fuel obj path op).2).all
      (fun k => !isPrototypePolluted k) = true ∧
    ∀ (parts : List String) (src : JValue),
      isPrototypePolluted (parts.headD "") = true →
        recurseGo fuel op parts src = (none, []) := by
  constructor
  · exact recurseGo_guard fuel op _ obj
  · intro parts src h
    match fuel with
    | 0 => rfl
    | fu + 1 =>
      match parts with
      | [] => simp only [List.headD] at h; simp [recurseGo, h]
      | k :: t => simp only [List.headD] at h; simp [recurseGo, h]

/-- Witness for C10 at a concrete callback and a concrete polluted path. -/
theorem recurseObjectByPath_pollution_guard_witness :
    ((recurseObjectByPath 2 .jnull "a.b" (fun _ _ _ => .ret none)).2).all
      (fun k => !isPrototypePolluted k) = true ∧
    recurseGo 2 (fun _ _ _ => .ret none) ["x__proto__y"] .jnull =
      (none, []) :=
  ⟨(recurseObjectByPath_pollution_guard 2 .jnull "a.b"
      (fun _ _ _ => .ret none)).1,
   (recurseObjectByPath_pollution_guard 2 .jnull "a.b"
      (fun _ _ _ => .ret none)).2 ["x__proto__y"] .jnull (by decide)⟩

/-! ## C4: key-derivation idempotence -/

/-- Counterexample to C4 as stated: on a freshly constructed instance
(empty tracked key set — a reachable state), deriving twice differs from
deriving once, because the first derived key is not tracked and so gets
hashed again. -/
theorem getNamespaceKey_not_idempotent_fresh :
    getNamespaceKey cmFresh (getNamespaceKey cmFresh "k") ≠
      getNamespaceKey cmFresh "k" := by decide

/-- C4 (amended): derivation is idempotent exactly when the key or its
derived form is already tracked — in particular after `setItem(k)` has
appended the derived key — not in every reachable state. -/
theorem getNamespaceKey_idempotent_of_tracked (cm : CacheManager)
    (key : String)
    (h : key ∈ cm.storedKeys ∨ getNamespaceKey cm key ∈ cm.storedKeys) :
    getNamespaceKey cm (getNamespaceKey cm key) = getNamespaceKey cm key := by
  by_cases hk : key ∈ cm.storedKeys
  · have hinner : getNamespaceKey cm key = key := by
      rw [getNamespaceKey, if_pos hk]
    rw [hinner]
    exact hinner
  · have hd : getNamespaceKey cm key ∈ cm.storedKeys := by
      rcases h with h | h
      · exact absurd h hk
      · exact h
    conv_lhs => rw [getNamespaceKey]
    rw [if_pos hd]

/-- Witness for the amended C4: after `setItem("k", null)` on the fresh
instance, the derived key is tracked and derivation is idempotent. -/
theorem getNamespaceKey_idempotent_of_tracked_witness :
    getNamespaceKey (setItemRaw cmFresh ⟨[]⟩ 0 "k" .jnull).1
        (getNamespaceKey (setItemRaw cmFresh ⟨[]⟩ 0 "k" .jnull).1 "k") =
      getNamespaceKey (setItemRaw cmFresh ⟨[]⟩ 0 "k" .jnull).1 "k" :=
  getNamespaceKey_idempotent_of_tracked _ "k" (Or.inr (by decide))

/-! ## C8: sweep scheduling on `expire` assignment -/

/-- C8: every assignment to `expire` (the constructor's initial assignment
included) cancels the previously scheduled recurring sweep, and schedules
a new one — with delay exactly the assigned ttl — iff the new value is a
positive number strictly below `MAX_SIGNED_INT`; zero, negative, `null`
(the embedded program's only non-number assignment, from `destruct`), or a
value at/above the maximum leaves nothing newly scheduled.  The hypothesis
says timer ids held by the instance were issued by the table. -/
theorem setExpire_scheduling (cm : CacheManager) (tm : Timers)
    (value : Option Int)
    (hid : ∀ i, cm.interval = TimerRef.tid i → i < tm.nextId) :
    (∀ i, cm.interval = TimerRef.tid i →
      i ∉ ((setExpire cm tm value).2).ids) ∧
    (∀ n, value = some n → 0 < n → n < MAX_SIGNED_INT →
      (setExpire cm tm value).1.interval = TimerRef.tid tm.nextId ∧
      (tm.nextId, n) ∈ ((setExpire cm tm value).2).active ∧
      (setExpire cm tm value).1.expire = some n) ∧
    (∀ n, value = some n → (n ≤ 0 ∨ MAX_SIGNED_INT ≤ n) →
      ((setExpire cm tm value).2).active = (tm.clearI cm.interval).active) ∧
    (value = none →
      ((setExpire cm tm value).2).active = (tm.clearI cm.interval).active) := by
  have hnid : (tm.clearI cm.interval).nextId = tm.nextId := by
    cases h : cm.interval <;> rfl
  have hclear : ∀ i, cm.interval = TimerRef.tid i →
      i ∉ ((tm.clearI cm.interval).active.map Prod.fst) := by
    intro i hi
    simp [hi, Timers.clearI, List.mem_map, List.mem_filter]
  have hguard :
      (if cm.interval ≠ TimerRef.jsnull then tm.clearI cm.interval else tm)
        = tm.clearI cm.interval := by
    split
    · rfl
    · rename_i hne
      rw [not_not] at hne
      rw [hne]
      rfl
  rcases value with _ | n
  · refine ⟨?_, ?_, ?_, ?_⟩
    · intro i hi
      simp only [setExpire, hguard, Timers.ids]
      exact hclear i hi
    · intro n hn
      exact absurd hn (by simp)
    · intro n hn
      exact absurd hn (by simp)
    · intro _
      simp only [setExpire, hguard]
  · by_cases hgate : 0 < n ∧ n < MAX_SIGNED_INT
    · refine ⟨?_, ?_, ?_, ?_⟩
      · intro i hi
        have hlt := hid i hi
        simp only [setExpire, hguard, if_pos hgate, Timers.setI, Timers.ids,
          List.map_append]
        intro hmem
        rcases List.mem_append.mp hmem with hmem | hmem
        · exact hclear i hi hmem
        · simp only [List.map_cons, List.map_nil, List.mem_singleton,
            hnid] at hmem
          omega
      · intro m hm _ _
        injection hm with hm
        subst hm
        refine ⟨?_, ?_, ?_⟩
        · simp [setExpire, hguard, if_pos hgate, Timers.setI, hnid]
        · simp [setExpire, hguard, if_pos hgate, Timers.setI, hnid]
        · simp [setExpire, hguard, if_pos hgate, Timers.setI, hnid]
      · intro m hm hout
        injection hm with hm
        subst hm
        exact absurd hgate (by omega)
      · intro hn
        exact absurd hn (by simp)
    · refine ⟨?_, ?_, ?_, ?_⟩
      · intro i hi
        simp only [setExpire, hguard, if_neg hgate, Timers.ids]
        exact hclear i hi
      · intro m hm h1 h2
        injection hm with hm
        subst hm
        exact absurd ⟨h1, h2⟩ hgate
      · intro m hm _
        simp [setExpire, hguard, if_neg hgate]
      · intro hn
        exact absurd hn (by simp)

/-- Witness for C8: an instance holding live timer 0 is reassigned
`expire := 1000`; timer 0 is cancelled and timer 1 is scheduled with delay
exactly 1000. -/
theorem setExpire_scheduling_witness :
    (setExpire
        ⟨"a", cacheTypeMemory, true, [], some 5, TimerRef.tid 0⟩
        ⟨[(0, 5)], 1⟩ (some 1000)).1.interval = TimerRef.tid 1 ∧
    (1, 1000) ∈ ((setExpire
        ⟨"a", cacheTypeMemory, true, [], some 5, TimerRef.tid 0⟩
        ⟨[(0, 5)], 1⟩ (some 1000)).2).active ∧
    0 ∉ ((setExpire
        ⟨"a", cacheTypeMemory, true, [], some 5, TimerRef.tid 0⟩
        ⟨[(0, 5)], 1⟩ (some 1000)).2).ids := by
  have h := setExpire_scheduling
    ⟨"a", cacheTypeMemory, true, [], some 5, TimerRef.tid 0⟩
    ⟨[(0, 5)], 1⟩ (some 1000)
    (by
      intro i hi
      have h2 : TimerRef.tid 0 = TimerRef.tid i := hi
      injection h2 with h3
      show i < 1
      omega)
  obtain ⟨hcancel, hsched, -, -⟩ := h
  obtain ⟨h1, h2, -⟩ := hsched 1000 rfl (by decide) (by decide)
  exact ⟨h1, h2, hcancel 0 rfl⟩

/-! ## The serialize→store→load→parse cycle

The inverse lemmas below establish `jsonParse (jsonStringify v) = some v`,
first for digits, then strings, then the whole grammar. -/

theorem digitCh_spec (k : Nat) (h : k < 10) :
    (Char.ofNat (48 + k)).toNat = 48 + k ∧
      jdigit (Char.ofNat (48 + k)) = true := by
  interval_cases k <;> exact ⟨by decide, by decide⟩

theorem natChars_acc (n : Nat) : ∀ acc : List Char,
    natChars n acc = natChars n [] ++ acc := by
  induction n using Nat.strongRecOn with
  | _ n ih =>
    intro acc
    by_cases h : n < 10
    · rw [natChars, if_pos h, natChars, if_pos h]
      rfl
    · rw [natChars, if_neg h]
      conv_rhs => rw [natChars]
      rw [if_neg h, ih (n / 10) (by omega) (Char.ofNat (48 + n % 10) :: acc),
        ih (n / 10) (by omega) [Char.ofNat (48 + n % 10)]]
      simp

theorem natChars_shape (n : Nat) :
    natChars n [] =
      (if n < 10 then [] else natChars (n / 10) []) ++
        [Char.ofNat (48 + n % 10)] := by
  rw [natChars]
  by_cases h : n < 10
  · simp [h, Nat.mod_eq_of_lt h]
  · rw [if_neg h, if_neg h, natChars_acc]

theorem natChars_ne_nil (n : Nat) : natChars n [] ≠ [] := by
  rw [natChars_shape]
  simp

theorem natChars_digits (n : Nat) :
    ∀ c ∈ natChars n [], jdigit c = true := by
  induction n using Nat.strongRecOn with
  | _ n ih =>
    rw [natChars_shape]
    intro c hc
    rcases List.mem_append.mp hc with hc | hc
    · by_cases h : n < 10
      · simp [h] at hc
      · exact ih (n / 10) (by omega) c (by simpa [h] using hc)
    · rw [List.mem_singleton] at hc
      subst hc
      exact (digitCh_spec (n % 10) (Nat.mod_lt _ (by omega))).2

theorem digitsVal_natChars (n : Nat) : digitsVal (natChars n []) = n := by
  induction n using Nat.strongRecOn with
  | _ n ih =>
    rw [natChars_shape]
    unfold digitsVal
    rw [List.foldl_append]
    by_cases h : n < 10
    · simp only [if_pos h, List.foldl_nil, List.foldl_cons]
      rw [(digitCh_spec (n % 10) (Nat.mod_lt _ (by omega))).1]
      omega
    · simp only [if_neg h, List.foldl_cons, List.foldl_nil]
      have := ih (n / 10) (by omega)
      unfold digitsVal at this
      rw [this, (digitCh_spec (n % 10) (Nat.mod_lt _ (by omega))).1]
      omega

theorem digitSpan_stop (rest : List Char) (h : noDigitHead rest = true) :
    digitSpan rest = ([], rest) := by
  match rest with
  | [] => rfl
  | c :: t =>
    simp only [noDigitHead, Bool.not_eq_true'] at h
    simp [digitSpan, h]

theorem digitSpan_run (ds : List Char) (rest : List Char)
    (hds : ∀ c ∈ ds, jdigit c = true) (hrest : noDigitHead rest = true) :
    digitSpan (ds ++ rest) = (ds, rest) := by
  induction ds with
  | nil => simpa using digitSpan_stop rest hrest
  | cons c t ih =>
    have hc := hds c (List.mem_cons_self ..)
    have ht := ih (fun x hx => hds x (List.mem_cons_of_mem _ hx))
    simp [digitSpan, hc, ht]

theorem jdigit_facts (c : Char) (h : jdigit c = true) :
    jws c = false ∧ c ≠ 'n' ∧ c ≠ 't' ∧ c ≠ 'f' ∧ c ≠ '"' ∧ c ≠ '[' ∧
      c ≠ '{' ∧ c ≠ '-' ∧ c ≠ ']' ∧ c ≠ '}' := by
  simp only [jdigit, Bool.and_eq_true, decide_eq_true_eq] at h
  refine ⟨?_, ?_, ?_, ?_, ?_, ?_, ?_, ?_, ?_, ?_⟩
  · simp only [jws, Bool.or_eq_false_iff, decide_eq_false_iff_not]
    refine ⟨⟨⟨?_, ?_⟩, ?_⟩, ?_⟩ <;>
      (intro he; subst he; revert h; decide)
  all_goals intro he; subst he; revert h; decide

theorem natChars_cons (n : Nat) :
    ∃ c t, natChars n [] = c :: t ∧ jdigit c = true := by
  match hm : natChars n [] with
  | [] => exact absurd hm (natChars_ne_nil _)
  | c :: t =>
    exact ⟨c, t, rfl, natChars_digits _ c (hm ▸ List.mem_cons_self ..)⟩

theorem numParse_ser (i : Int) (rest : List Char)
    (hrest : noDigitHead rest = true) :
    numParse (intChars i ++ rest) = some (i, rest) := by
  obtain ⟨c, t, hm, hc⟩ := natChars_cons i.natAbs
  have hval : digitsVal (c :: t) = i.natAbs := by
    rw [← hm, digitsVal_natChars]
  have hspan : digitSpan (c :: (t ++ rest)) = (c :: t, rest) := by
    have := digitSpan_run (c :: t) rest
      (fun x hx => natChars_digits _ x (hm ▸ hx)) hrest
    simpa using this
  by_cases hneg : i < 0
  · have harg : intChars i ++ rest = '-' :: (c :: (t ++ rest)) := by
      simp [intChars, hneg, hm]
    rw [harg]
    simp only [numParse, hspan]
    simp only [hval, Option.some.injEq, Prod.mk.injEq, and_true]
    omega
  · have hfacts := jdigit_facts c hc
    have harg : intChars i ++ rest = c :: (t ++ rest) := by
      simp [intChars, hneg, hm]
    rw [harg]
    simp only [numParse]
    rcases hfacts with ⟨-, -, -, -, -, -, -, hminus, -, -⟩
    simp [hminus, hspan, hval]
    omega

theorem hexVal_hexCh (k : Nat) (h : k < 16) : hexVal (hexCh k) = some k := by
  interval_cases k <;> decide

/-- Consuming one escaped character during string parsing. -/
theorem strParse_escChar (c : Char) (tail : List Char) :
    strParse (escChar c ++ tail) =
      match strParse tail with
      | some (out, r) => some (c :: out, r)
      | none => none := by
  by_cases h1 : c = '"'
  · subst h1; simp [escChar, strParse, escDecode]
  by_cases h2 : c = '\\'
  · subst h2; simp [escChar, strParse, escDecode]
  by_cases h3 : c = Char.ofNat 8
  · subst h3; simp [escChar, strParse, escDecode]
  by_cases h4 : c = Char.ofNat 9
  · subst h4; simp [escChar, strParse, escDecode]
  by_cases h5 : c = Char.ofNat 10
  · subst h5; simp [escChar, strParse, escDecode]
  by_cases h6 : c = Char.ofNat 12
  · subst h6; simp [escChar, strParse, escDecode]
  by_cases h7 : c = Char.ofNat 13
  · subst h7; simp [escChar, strParse, escDecode]
  by_cases h8 : c.toNat < 32
  · simp only [escChar, if_neg h1, if_neg h2, if_neg h3, if_neg h4,
      if_neg h5, if_neg h6, if_neg h7, if_pos h8, List.cons_append,
      List.nil_append]
    simp only [strParse, hexVal_hexCh (c.toNat / 16) (by omega),
      hexVal_hexCh (c.toNat % 16) (Nat.mod_lt _ (by omega))]
    have harith : c.toNat / 16 * 16 + c.toNat % 16 = c.toNat := by omega
    have h0 : hexVal '0' = some 0 := by decide
    simp [h0, harith, Char.ofNat_toNat]
  · simp only [escChar, if_neg h1, if_neg h2, if_neg h3, if_neg h4,
      if_neg h5, if_neg h6, if_neg h7, if_neg h8, List.cons_append,
      List.nil_append]
    rw [strParse.eq_def]
    simp [h1, h2]

/-- Parsing a whole escaped run recovers the characters. -/
theorem strParse_ser (s : List Char) (rest : List Char) :
    strParse (s.flatMap escChar ++ '"' :: rest) = some (s, rest) := by
  induction s with
  | nil => simp [strParse]
  | cons c t ih =>
    rw [List.flatMap_cons, List.append_assoc, strParse_escChar, ih]

theorem wsDrop_cons {c : Char} (t : List Char) (h : jws c = false) :
    wsDrop (c :: t) = c :: t := by
  simp [wsDrop, h]

theorem stringMk_data (s : String) : String.mk s.data = s := rfl

/-- A good head character for a rendered value: not whitespace and not a
closing bracket. -/
def goodHead (c : Char) : Bool := !jws c && !(c = ']') && !(c = '}')

/-- A rendered value never starts with whitespace, `]`, or `}`. -/
theorem serV_head (v : JValue) :
    ∃ c t, serV v = c :: t ∧ jws c = false ∧ c ≠ ']' ∧ c ≠ '}' := by
  have unpack : ∀ c : Char, goodHead c = true →
      jws c = false ∧ c ≠ ']' ∧ c ≠ '}' := by
    intro c hc
    simp only [goodHead, Bool.and_eq_true, Bool.not_eq_true',
      decide_eq_false_iff_not] at hc
    exact ⟨hc.1.1, hc.1.2, hc.2⟩
  cases v with
  | jnum i =>
    by_cases hneg : i < 0
    · refine ⟨'-', natChars i.natAbs [], ?_, unpack '-' rfl⟩
      simp [serV, intChars, hneg]
    · obtain ⟨c, t, hm, hc⟩ := natChars_cons i.natAbs
      obtain ⟨hws, -, -, -, -, -, -, -, hrb, hcb⟩ := jdigit_facts c hc
      refine ⟨c, t, ?_, hws, hrb, hcb⟩
      simp [serV, intChars, hneg, hm]
  | jnull => exact ⟨'n', ['u', 'l', 'l'], rfl, unpack 'n' rfl⟩
  | jbool b =>
    match b with
    | true => exact ⟨'t', ['r', 'u', 'e'], rfl, unpack 't' rfl⟩
    | false => exact ⟨'f', ['a', 'l', 's', 'e'], rfl, unpack 'f' rfl⟩
  | jstr s => exact ⟨'"', s.data.flatMap escChar ++ ['"'], rfl,
      unpack '"' rfl⟩
  | jarr es =>
    match es with
    | [] => exact ⟨'[', [']'], rfl, unpack '[' rfl⟩
    | e :: es => exact ⟨'[', serV e ++ serArrTail es ++ [']'], rfl,
        unpack '[' rfl⟩
  | jobj ms =>
    match ms with
    | [] => exact ⟨'{', ['}'], rfl, unpack '{' rfl⟩
    | m :: ms => exact ⟨'{',
        strChars m.1 ++ ':' :: serV m.2 ++ serObjTail ms ++ ['}'], rfl,
        unpack '{' rfl⟩

/-- When the head is no keyword/string/bracket opener, `pVal` parses a
number. -/
theorem pVal_num_branch (fu : Nat) (c : Char) (t : List Char)
    (hws : jws c = false) (hn : c ≠ 'n') (ht : c ≠ 't') (hf : c ≠ 'f')
    (hq : c ≠ '"') (hbk : c ≠ '[') (hbc : c ≠ '{')
    (hg : (c = '-' || jdigit c) = true) :
    pVal (fu + 1) (c :: t) =
      match numParse (c :: t) with
      | some (i, r') => some (.jnum i, r')
      | none => none := by
  simp only [pVal]
  rw [wsDrop_cons t hws]
  simp [hn, ht, hf, hq, hbk, hbc, hg]

/-- A rendered tail (after one array element) starts with `,` or `]`. -/
theorem serArrTail_stop (es : List JValue) (rest : List Char) :
    noDigitHead (serArrTail es ++ ']' :: rest) = true := by
  cases es <;> simp [serArrTail, noDigitHead, jdigit]

/-- A rendered tail (after one object member) starts with `,` or `}`. -/
theorem serObjTail_stop (ms : List (String × JValue)) (rest : List Char) :
    noDigitHead (serObjTail ms ++ '}' :: rest) = true := by
  cases ms <;> simp [serObjTail, noDigitHead, jdigit]

/-- `pVal` on a `[`-headed input dispatches to the array branch. -/
theorem pVal_arr_branch (fu : Nat) (r : List Char) :
    pVal (fu + 1) ('[' :: r) =
      match wsDrop r with
      | ']' :: r' => some (.jarr [], r')
      | r2 =>
        match pElems fu r2 with
        | some (es, r') => some (.jarr es, r')
        | none => none := rfl

/-- `pVal` on a `{`-headed input dispatches to the object branch. -/
theorem pVal_obj_branch (fu : Nat) (r : List Char) :
    pVal (fu + 1) ('{' :: r) =
      match wsDrop r with
      | '}' :: r' => some (.jobj [], r')
      | r2 =>
        match pMems fu r2 with
        | some (ms, r') => some (.jobj ms, r')
        | none => none := rfl

mutual

/-- The codec round-trip on one value, with enough fuel and a remainder no
digit can extend. -/
theorem rtV : ∀ (v : JValue) (fu : Nat) (rest : List Char),
    jfuel v ≤ fu → noDigitHead rest = true →
    pVal fu (serV v ++ rest) = some (v, rest)
  | .jnull, 0, _, hfu, _ => by simp [jfuel] at hfu
  | .jnull, fu + 1, rest, _, _ => by
    simp [serV, pVal, wsDrop, jws]
  | .jbool true, 0, _, hfu, _ => by simp [jfuel] at hfu
  | .jbool true, fu + 1, rest, _, _ => by
    simp [serV, pVal, wsDrop, jws]
  | .jbool false, 0, _, hfu, _ => by simp [jfuel] at hfu
  | .jbool false, fu + 1, rest, _, _ => by
    simp [serV, pVal, wsDrop, jws]
  | .jnum i, 0, _, hfu, _ => by simp [jfuel] at hfu
  | .jnum i, fu + 1, rest, _, hrest => by
    by_cases hneg : i < 0
    · have harg : serV (.jnum i) ++ rest
          = '-' :: (natChars i.natAbs [] ++ rest) := by
        simp [serV, intChars, hneg]
      rw [harg, pVal_num_branch fu '-' _ (by decide) (by decide) (by decide)
        (by decide) (by decide) (by decide) (by decide) (by decide), ← harg]
      have : serV (.jnum i) ++ rest = intChars i ++ rest := by simp [serV]
      rw [this, numParse_ser i rest hrest]
    · obtain ⟨c, t, hm, hc⟩ := natChars_cons i.natAbs
      obtain ⟨hws, hn, ht, hf, hq, hbk, hbc, hminus, -, -⟩ :=
        jdigit_facts c hc
      have harg : serV (.jnum i) ++ rest = c :: (t ++ rest) := by
        simp [serV, intChars, hneg, hm]
      rw [harg, pVal_num_branch fu c _ hws hn ht hf hq hbk hbc
        (by simp [hc]), ← harg]
      have : serV (.jnum i) ++ rest = intChars i ++ rest := by simp [serV]
      rw [this, numParse_ser i rest hrest]
  | .jstr s, 0, _, hfu, _ => by simp [jfuel] at hfu
  | .jstr s, fu + 1, rest, _, _ => by
    have harg : serV (.jstr s) ++ rest
        = '"' :: (s.data.flatMap escChar ++ '"' :: rest) := by
      simp [serV, strChars]
    rw [harg]
    simp only [pVal]
    rw [wsDrop_cons _ (by decide)]
    simp [strParse_ser]
  | .jarr [], 0, _, hfu, _ => by simp [jfuel] at hfu
  | .jarr [], fu + 1, rest, _, _ => by
    simp [serV, pVal, wsDrop, jws]
  | .jarr (e :: es), 0, _, hfu, _ => by
    simp only [jfuel] at hfu
    omega
  | .jarr (e :: es), fu + 1, rest, hfu, hrest => by
    obtain ⟨c, t, hm, hws, hrb, -⟩ := serV_head e
    have hcall := rtElems e es fu rest
      (by simp only [jfuel] at hfu; omega) hrest
    rw [hm, List.cons_append] at hcall
    have harg : serV (.jarr (e :: es)) ++ rest
        = '[' :: (c :: (t ++ (serArrTail es ++ ']' :: rest))) := by
      simp [serV, hm]
    rw [harg, pVal_arr_branch, wsDrop_cons _ hws]
    split
    · rename_i r' heq
      injection heq with h1 h2
      exact absurd h1 hrb
    · rw [hcall]
  | .jobj [], 0, _, hfu, _ => by simp [jfuel] at hfu
  | .jobj [], fu + 1, rest, _, _ => by
    simp [serV, pVal, wsDrop, jws]
  | .jobj (m :: ms), 0, _, hfu, _ => by
    simp only [jfuel] at hfu
    omega
  | .jobj (m :: ms), fu + 1, rest, hfu, hrest => by
    have hcall := rtMems m ms fu rest
      (by simp only [jfuel] at hfu; omega) hrest
    have harg : serV (.jobj (m :: ms)) ++ rest
        = '{' :: ('"' :: (m.1.data.flatMap escChar ++
            '"' :: (':' :: (serV m.2 ++
              (serObjTail ms ++ '}' :: rest))))) := by
      simp [serV, strChars]
    rw [harg, pVal_obj_branch, wsDrop_cons _ (by decide)]
    simp [hcall]

/-- The codec round-trip on a nonempty rendered element list. -/
theorem rtElems : ∀ (e : JValue) (es : List JValue) (fu : Nat)
    (rest : List Char),
    jfuelElems (e :: es) ≤ fu → noDigitHead rest = true →
    pElems fu (serV e ++ (serArrTail es ++ ']' :: rest))
      = some (e :: es, rest)
  | e, es, 0, _, hfu, _ => by
    simp only [jfuelElems] at hfu
    omega
  | e, es, fu + 1, rest, hfu, hrest => by
    simp only [pElems]
    rw [rtV e fu (serArrTail es ++ ']' :: rest)
      (by simp only [jfuelElems] at hfu; omega)
      (serArrTail_stop es rest)]
    match es with
    | [] =>
      simp [serArrTail, wsDrop, jws]
    | x :: xs =>
      have hcall := rtElems x xs fu rest
        (by simp only [jfuelElems, jfuelMems] at hfu ⊢; omega) hrest
      have htail : serArrTail (x :: xs) ++ ']' :: rest
          = ',' :: (serV x ++ (serArrTail xs ++ ']' :: rest)) := by
        simp [serArrTail]
      rw [htail]
      simp [wsDrop, jws, hcall]

/-- The codec round-trip on a nonempty rendered member list. -/
theorem rtMems : ∀ (m : String × JValue) (ms : List (String × JValue))
    (fu : Nat) (rest : List Char),
    jfuelMems (m :: ms) ≤ fu → noDigitHead rest = true →
    pMems fu ('"' :: (m.1.data.flatMap escChar ++
        '"' :: (':' :: (serV m.2 ++ (serObjTail ms ++ '}' :: rest)))))
      = some (m :: ms, rest)
  | m, ms, 0, _, hfu, _ => by
    simp only [jfuelMems] at hfu
    omega
  | m, ms, fu + 1, rest, hfu, hrest => by
    simp only [pMems]
    rw [wsDrop_cons _ (by decide)]
    have hkey := strParse_ser m.1.data (':' :: (serV m.2 ++
      (serObjTail ms ++ '}' :: rest)))
    have hv := rtV m.2 fu (serObjTail ms ++ '}' :: rest)
      (by simp only [jfuelMems] at hfu; omega)
      (serObjTail_stop ms rest)
    match ms with
    | [] =>
      simp only [serObjTail, List.nil_append] at hkey hv
      simp [serObjTail, hkey, wsDrop, jws, hv, stringMk_data]
    | m2 :: ms2 =>
      have hcall := rtMems m2 ms2 fu rest
        (by simp only [jfuelMems] at hfu ⊢; omega) hrest
      have htail : serObjTail (m2 :: ms2) ++ '}' :: rest
          = ',' :: ('"' :: (m2.1.data.flatMap escChar ++
              '"' :: (':' :: (serV m2.2 ++
                (serObjTail ms2 ++ '}' :: rest))))) := by
        simp [serObjTail, strChars]
      rw [htail] at hkey hv
      simp [hkey, wsDrop, jws, htail, hv, hcall, stringMk_data]

end

mutual

/-- Rendering is at least as long as the fuel the parser needs. -/
theorem jfuel_le : ∀ v : JValue, jfuel v ≤ (serV v).length
  | .jnull => by decide
  | .jbool true => by decide
  | .jbool false => by decide
  | .jnum i => by
    by_cases hneg : i < 0
    · obtain ⟨c, t, hm, -⟩ := natChars_cons i.natAbs
      simp [jfuel, serV, intChars, hneg, hm]
    · obtain ⟨c, t, hm, -⟩ := natChars_cons i.natAbs
      simp [jfuel, serV, intChars, hneg, hm]
  | .jstr s => by simp [jfuel, serV, strChars]
  | .jarr [] => by decide
  | .jarr (e :: es) => by
    have h := jfuelElems_le e es
    simp only [jfuel, serV, List.length_cons, List.length_append,
      List.length_singleton]
    omega
  | .jobj [] => by decide
  | .jobj ((a, w) :: ms) => by
    have h := jfuelMems_le a w ms
    simp only [jfuel, serV, List.length_cons, List.length_append,
      List.length_singleton]
    omega
termination_by v => sizeOf v
decreasing_by all_goals (simp_wf <;> omega)

/-- Fuel bound for element lists. -/
theorem jfuelElems_le : ∀ (e : JValue) (es : List JValue),
    jfuelElems (e :: es) ≤ 1 + (serV e).length + (serArrTail es).length
  | e, [] => by
    have h := jfuel_le e
    simp only [jfuelElems]
    omega
  | e, x :: xs => by
    have h1 := jfuel_le e
    have h2 := jfuelElems_le x xs
    simp only [jfuelElems] at h2 ⊢
    simp only [serArrTail, List.length_cons, List.length_append]
    omega
termination_by e es => sizeOf e + sizeOf es
decreasing_by all_goals (simp_wf <;> omega)

/-- Fuel bound for member lists. -/
theorem jfuelMems_le : ∀ (a : String) (w : JValue)
    (ms : List (String × JValue)),
    jfuelMems ((a, w) :: ms) ≤ 1 + (serV w).length + (serObjTail ms).length
  | a, w, [] => by
    have h := jfuel_le w
    simp only [jfuelMems]
    omega
  | a, w, (b, w2) :: ms2 => by
    have h1 := jfuel_le w
    have h2 := jfuelMems_le b w2 ms2
    simp only [jfuelMems] at h2 ⊢
    simp only [serObjTail, List.length_cons, List.length_append]
    omega
termination_by a w ms => sizeOf w + sizeOf ms
decreasing_by all_goals (simp_wf <;> omega)

end

/-- The serialize→parse cycle is the identity on JSON values: what
`setItem` writes to a text medium, `getItem` parses back exactly. -/
theorem jsonParse_jsonStringify (v : JValue) :
    jsonParse (jsonStringify v) = some v := by
  have h := rtV v ((serV v).length + 1) []
    (Nat.le_trans (jfuel_le v) (Nat.le_succ _)) rfl
  rw [List.append_nil] at h
  unfold jsonParse jsonStringify
  have hlen : (String.mk (serV v)).length = (serV v).length := rfl
  have hdata : (String.mk (serV v)).data = serV v := rfl
  rw [hlen, hdata, h]
  rfl

/-! ## Read-after-write lemmas for the façade -/

theorem setItemRaw_fst (cm : CacheManager) (store : Store) (t0 : Int)
    (k : String) (v : JValue) :
    (setItemRaw cm store t0 k v).1 =
      { cm with storedKeys := cm.storedKeys ++ [getNamespaceKey cm k] } :=
  rfl

theorem setItemRaw_snd (cm : CacheManager) (store : Store) (t0 : Int)
    (k : String) (v : JValue) :
    (setItemRaw cm store t0 k v).2 =
      store.setItem (getNamespaceKey cm k)
        (if isTextStorage cm.storageType then
          .jstr (jsonStringify (envelope t0 v))
        else envelope t0 v) :=
  rfl

/-- Deriving the same logical key after its `setItem` gives the same
storage key: either it was already tracked, or the appended derived key is
found (or re-derived identically). -/
theorem getNamespaceKey_after_set (cm : CacheManager) (store : Store)
    (t0 : Int) (k : String) (v : JValue) :
    getNamespaceKey (setItemRaw cm store t0 k v).1 k =
      getNamespaceKey cm k := by
  rw [setItemRaw_fst]
  by_cases hk : k ∈ cm.storedKeys
  · have h1 : getNamespaceKey cm k = k := by
      rw [getNamespaceKey, if_pos hk]
    have hmem : k ∈ cm.storedKeys ++ [getNamespaceKey cm k] :=
      List.mem_append.mpr (Or.inl hk)
    have h2 : getNamespaceKey
        { cm with storedKeys := cm.storedKeys ++ [getNamespaceKey cm k] } k
          = k := by
      rw [getNamespaceKey]
      exact if_pos hmem
    rw [h2, h1]
  · have h1 : getNamespaceKey cm k = cm.nsp ++ "_" ++ md5 k := by
      rw [getNamespaceKey, if_neg hk]
    by_cases he : k = cm.nsp ++ "_" ++ md5 k
    · have hmem : k ∈ cm.storedKeys ++ [getNamespaceKey cm k] := by
        rw [h1]
        exact List.mem_append.mpr (Or.inr (List.mem_singleton.mpr he))
      have h2 : getNamespaceKey
          { cm with storedKeys := cm.storedKeys ++ [getNamespaceKey cm k] } k
            = k := by
        rw [getNamespaceKey]
        exact if_pos hmem
      rw [h2, h1]
      exact he
    · have hmem : ¬k ∈ cm.storedKeys ++ [getNamespaceKey cm k] := by
        rw [h1]
        intro hcon
        rcases List.mem_append.mp hcon with hcon | hcon
        · exact hk hcon
        · exact he (List.mem_singleton.mp hcon)
      have h2 : getNamespaceKey
          { cm with storedKeys := cm.storedKeys ++ [getNamespaceKey cm k] } k
            = cm.nsp ++ "_" ++ md5 k := by
        rw [getNamespaceKey]
        exact if_neg hmem
      rw [h2, h1]

theorem find_map_update (k : String) (v : JValue) :
    ∀ l : List (String × JValue), l.any (fun e => e.1 = k) = true →
      (l.map (fun e => if e.1 = k then (k, v) else e)).find?
        (fun e => e.1 = k) = some (k, v)
  | [], h => by simp at h
  | e :: t, h => by
    by_cases he : e.1 = k
    · simp [List.find?, he]
    · have ht : t.any (fun e => e.1 = k) = true := by
        simpa [List.any_cons, he] using h
      simp [List.find?, he, find_map_update k v t ht]

theorem find_append_new (k : String) (v : JValue) :
    ∀ l : List (String × JValue), l.any (fun e => e.1 = k) = false →
      (l ++ [(k, v)]).find? (fun e => e.1 = k) = some (k, v)
  | [], _ => by simp [List.find?]
  | e :: t, h => by
    have h' : ¬(e.1 = k) ∧ t.any (fun e => e.1 = k) = false := by
      simpa [List.any_cons] using h
    simp [List.find?, h'.1, find_append_new k v t h'.2]

/-- Reading back the key just written returns the raw value written. -/
theorem Store.getItem_setItem_self (st : Store) (k : String) (v : JValue) :
    (st.setItem k v).getItem k = v := by
  unfold Store.setItem Store.getItem
  by_cases hany : st.entries.any (fun e => e.1 = k) = true
  · simp only [if_pos hany]
    rw [find_map_update k v st.entries hany]
  · rw [if_neg hany]
    rw [find_append_new k v st.entries (Bool.eq_false_iff.mpr hany)]

theorem jsonParseJS_stringify (v : JValue) :
    jsonParseJS (.jstr (jsonStringify v)) = .ok v := by
  simp [jsonParseJS, jsonParse_jsonStringify]

theorem tryParse_stringify (v : JValue) :
    tryParse (.jstr (jsonStringify v)) = v := by
  simp [tryParse, jsonParseJS_stringify]

theorem envelope_not_null (t0 : Int) (v : JValue) :
    isNull (envelope t0 v) = false := rfl

theorem envelope_has_t (t0 : Int) (v : JValue) :
    jhas (envelope t0 v) "t" = true := by
  simp [envelope, jhas]

theorem envelope_get_t (t0 : Int) (v : JValue) :
    jget (envelope t0 v) "t" = some (.jnum t0) := by
  simp [envelope, jget]

theorem envelope_get_v (t0 : Int) (v : JValue) :
    jget (envelope t0 v) "v" = some v := by
  simp [envelope, jget, List.find?]

/-- After `setItem` at time `t0`, `isExpired` is exactly the spec's
predicate: false for a disabled ttl, else `writtenAt < now - ttl`. -/
theorem isExpired_after_set (cm : CacheManager) (store : Store)
    (k : String) (v : JValue) (t0 now : Int) :
    isExpired (setItemRaw cm store t0 k v).1 (setItemRaw cm store t0 k v).2
        now k
      = match cm.expire with
        | none => false
        | some e => if e ≤ 0 then false else decide (t0 < now - e) := by
  unfold isExpired
  have hexp : (setItemRaw cm store t0 k v).1.expire = cm.expire := rfl
  rw [hexp]
  cases cm.expire with
  | none => rfl
  | some e =>
    by_cases he : e ≤ 0
    · simp [he]
    · have hst : (setItemRaw cm store t0 k v).1.storageType
          = cm.storageType := rfl
      simp only [he, if_false, getNamespaceKey_after_set, setItemRaw_snd,
        Store.getItem_setItem_self, hst]
      by_cases htext : isTextStorage cm.storageType = true
      · simp [htext, tryParse_stringify, isNull, envelope, jget, jltNum,
          List.find?]
      · simp [htext, isNull, envelope, jget, jltNum, List.find?]

/-- After `setItem` at `t0`, `getItem` either removes-and-misses (when
expired) or returns exactly the stored value. -/
theorem getItemJS_after_set (cm : CacheManager) (store : Store)
    (k : String) (v : JValue) (t0 now : Int) (hs : cm.hasStorage = true) :
    getItemJS (setItemRaw cm store t0 k v).1 (setItemRaw cm store t0 k v).2
        now k
      = if isExpired (setItemRaw cm store t0 k v).1
            (setItemRaw cm store t0 k v).2 now k then
          .ok (some .jnull,
            (removeItemRaw (setItemRaw cm store t0 k v).1
              (setItemRaw cm store t0 k v).2 k).1,
            (removeItemRaw (setItemRaw cm store t0 k v).1
              (setItemRaw cm store t0 k v).2 k).2)
        else
          .ok (some v, (setItemRaw cm store t0 k v).1,
            (setItemRaw cm store t0 k v).2) := by
  unfold getItemJS
  have hs' : (setItemRaw cm store t0 k v).1.hasStorage = true := hs
  have hst : (setItemRaw cm store t0 k v).1.storageType
      = cm.storageType := rfl
  rw [if_pos hs']
  simp only [getNamespaceKey_after_set, setItemRaw_snd,
    Store.getItem_setItem_self, hst]
  by_cases htext : isTextStorage cm.storageType = true
  · simp only [htext, if_true, jsonParseJS_stringify]
    simp [envelope_not_null, envelope_has_t, envelope_get_v, isNull,
      envelope, jhas, jget, List.find?]
  · simp only [htext, if_false]
    simp [envelope_not_null, envelope_has_t, envelope_get_v, isNull,
      envelope, jhas, jget, List.find?]

/-! ## C1: round-trip -/

/-- C1: on any instance whose storage is defined (all three backend
kinds), `setItem(k, v)` followed by `getItem(k)` before the entry expires
returns exactly `v`; and for the text-based backends the
serialize→store→load→parse cycle is the identity on `v` (stated on the
object-graph values, `jwf`). -/
theorem setItem_getItem_roundtrip (cm : CacheManager) (store : Store)
    (k : String) (v : JValue) (t0 now : Int)
    (hs : cm.hasStorage = true) (hwf : jwf v = true)
    (hfresh : isExpired (setItemRaw cm store t0 k v).1
        (setItemRaw cm store t0 k v).2 now k = false) :
    getItemJS (setItemRaw cm store t0 k v).1 (setItemRaw cm store t0 k v).2
        now k
      = .ok (some v, (setItemRaw cm store t0 k v).1,
          (setItemRaw cm store t0 k v).2) ∧
    jsonParse (jsonStringify v) = some v := by
  refine ⟨?_, jsonParse_jsonStringify v⟩
  rw [getItemJS_after_set cm store k v t0 now hs, if_neg (by simp [hfresh])]

/-- Witness for C1 on all three backend kinds, with the scenario value
`{age: 30}` written and read back at `t = 0`. -/
theorem setItem_getItem_roundtrip_witness :
    (getItemJS
        (setItemRaw (construct "w" ⟨[]⟩ ⟨[], 0⟩ cacheTypeMemory).1 ⟨[]⟩ 0
          "alice" (.jobj [("age", .jnum 30)])).1
        (setItemRaw (construct "w" ⟨[]⟩ ⟨[], 0⟩ cacheTypeMemory).1 ⟨[]⟩ 0
          "alice" (.jobj [("age", .jnum 30)])).2 0 "alice"
      = .ok (some (.jobj [("age", .jnum 30)]),
          (setItemRaw (construct "w" ⟨[]⟩ ⟨[], 0⟩ cacheTypeMemory).1 ⟨[]⟩ 0
            "alice" (.jobj [("age", .jnum 30)])).1,
          (setItemRaw (construct "w" ⟨[]⟩ ⟨[], 0⟩ cacheTypeMemory).1 ⟨[]⟩ 0
            "alice" (.jobj [("age", .jnum 30)])).2)) ∧
    (getItemJS
        (setItemRaw (construct "w" ⟨[]⟩ ⟨[], 0⟩ cacheTypeLocal).1 ⟨[]⟩ 0
          "alice" (.jobj [("age", .jnum 30)])).1
        (setItemRaw (construct "w" ⟨[]⟩ ⟨[], 0⟩ cacheTypeLocal).1 ⟨[]⟩ 0
          "alice" (.jobj [("age", .jnum 30)])).2 0 "alice"
      = .ok (some (.jobj [("age", .jnum 30)]),
          (setItemRaw (construct "w" ⟨[]⟩ ⟨[], 0⟩ cacheTypeLocal).1 ⟨[]⟩ 0
            "alice" (.jobj [("age", .jnum 30)])).1,
          (setItemRaw (construct "w" ⟨[]⟩ ⟨[], 0⟩ cacheTypeLocal).1 ⟨[]⟩ 0
            "alice" (.jobj [("age", .jnum 30)])).2)) ∧
    (getItemJS
        (setItemRaw (construct "w" ⟨[]⟩ ⟨[], 0⟩ cacheTypeSession).1 ⟨[]⟩ 0
          "alice" (.jobj [("age", .jnum 30)])).1
        (setItemRaw (construct "w" ⟨[]⟩ ⟨[], 0⟩ cacheTypeSession).1 ⟨[]⟩ 0
          "alice" (.jobj [("age", .jnum 30)])).2 0 "alice"
      = .ok (some (.jobj [("age", .jnum 30)]),
          (setItemRaw (construct "w" ⟨[]⟩ ⟨[], 0⟩ cacheTypeSession).1 ⟨[]⟩
            0 "alice" (.jobj [("age", .jnum 30)])).1,
          (setItemRaw (construct "w" ⟨[]⟩ ⟨[], 0⟩ cacheTypeSession).1 ⟨[]⟩
            0 "alice" (.jobj [("age", .jnum 30)])).2)) ∧
    jsonParse (jsonStringify (.jobj [("age", .jnum 30)]))
      = some (.jobj [("age", .jnum 30)]) := by
  refine ⟨?_, ?_, ?_, ?_⟩
  · exact (setItem_getItem_roundtrip _ _ "alice" _ 0 0 (by decide)
      (by decide)
      ((isExpired_after_set _ _ "alice" _ 0 0).trans (by decide))).1
  · exact (setItem_getItem_roundtrip _ _ "alice" _ 0 0 (by decide)
      (by decide)
      ((isExpired_after_set _ _ "alice" _ 0 0).trans (by decide))).1
  · exact (setItem_getItem_roundtrip _ _ "alice" _ 0 0 (by decide)
      (by decide)
      ((isExpired_after_set _ _ "alice" _ 0 0).trans (by decide))).1
  · exact (setItem_getItem_roundtrip
      (construct "w" ⟨[]⟩ ⟨[], 0⟩ cacheTypeLocal).1 ⟨[]⟩ "alice" _ 0 0
      (by decide) (by decide)
      ((isExpired_after_set _ _ "alice" _ 0 0).trans (by decide))).2

/-! ## C2: TTL correctness -/

/-- C2: with a positive ttl `T`, an entry written at `t0` satisfies: the
expiration predicate is exactly `writtenAt < now - T`; `getItem` returns
the stored value at any time strictly before `t0 + T`; and at any time
after `t0 + T` it removes the entry and returns `null`. -/
theorem ttl_expiry (cm : CacheManager) (store : Store) (k : String)
    (v : JValue) (T t0 now : Int)
    (hs : cm.hasStorage = true) (hT : cm.expire = some T)
    (hTpos : 0 < T) :
    (isExpired (setItemRaw cm store t0 k v).1 (setItemRaw cm store t0 k v).2
        now k = decide (t0 < now - T)) ∧
    (now < t0 + T →
      getItemJS (setItemRaw cm store t0 k v).1
          (setItemRaw cm store t0 k v).2 now k
        = .ok (some v, (setItemRaw cm store t0 k v).1,
            (setItemRaw cm store t0 k v).2)) ∧
    (t0 + T < now →
      getItemJS (setItemRaw cm store t0 k v).1
          (setItemRaw cm store t0 k v).2 now k
        = .ok (some .jnull,
            (removeItemRaw (setItemRaw cm store t0 k v).1
              (setItemRaw cm store t0 k v).2 k).1,
            (removeItemRaw (setItemRaw cm store t0 k v).1
              (setItemRaw cm store t0 k v).2 k).2)) := by
  have hpred : isExpired (setItemRaw cm store t0 k v).1
      (setItemRaw cm store t0 k v).2 now k = decide (t0 < now - T) := by
    rw [isExpired_after_set, hT]
    simp only [if_neg (by omega : ¬T ≤ 0)]
  refine ⟨hpred, ?_, ?_⟩
  · intro hlt
    rw [getItemJS_after_set cm store k v t0 now hs,
      if_neg (by simp [hpred]; omega)]
  · intro hgt
    rw [getItemJS_after_set cm store k v t0 now hs,
      if_pos (by rw [hpred]; simp; omega)]

/-- Witness for C2, the spec's scenario: ttl 1 hour, write at `t0 = 0`,
read at `t = 500` (present) and `t = 7200000` (absent). -/
theorem ttl_expiry_witness :
    (isExpired (setItemRaw cmFresh ⟨[]⟩ 0 "k" (.jnum 7)).1
        (setItemRaw cmFresh ⟨[]⟩ 0 "k" (.jnum 7)).2 500 "k"
      = decide ((0 : Int) < 500 - 3600000)) ∧
    (getItemJS (setItemRaw cmFresh ⟨[]⟩ 0 "k" (.jnum 7)).1
        (setItemRaw cmFresh ⟨[]⟩ 0 "k" (.jnum 7)).2 500 "k"
      = .ok (some (.jnum 7), (setItemRaw cmFresh ⟨[]⟩ 0 "k" (.jnum 7)).1,
          (setItemRaw cmFresh ⟨[]⟩ 0 "k" (.jnum 7)).2)) ∧
    (getItemJS (setItemRaw cmFresh ⟨[]⟩ 0 "k" (.jnum 7)).1
        (setItemRaw cmFresh ⟨[]⟩ 0 "k" (.jnum 7)).2 7200000 "k"
      = .ok (some .jnull,
          (removeItemRaw (setItemRaw cmFresh ⟨[]⟩ 0 "k" (.jnum 7)).1
            (setItemRaw cmFresh ⟨[]⟩ 0 "k" (.jnum 7)).2 "k").1,
          (removeItemRaw (setItemRaw cmFresh ⟨[]⟩ 0 "k" (.jnum 7)).1
            (setItemRaw cmFresh ⟨[]⟩ 0 "k" (.jnum 7)).2 "k").2)) :=
  ⟨(ttl_expiry cmFresh ⟨[]⟩ "k" (.jnum 7) 3600000 0 500 (by decide) rfl
      (by decide)).1,
   (ttl_expiry cmFresh ⟨[]⟩ "k" (.jnum 7) 3600000 0 500 (by decide) rfl
      (by decide)).2.1 (by decide),
   (ttl_expiry cmFresh ⟨[]⟩ "k" (.jnum 7) 3600000 0 7200000 (by decide)
      rfl (by decide)).2.2 (by decide)⟩

/-! ## C3: malformed stored payloads -/

/-- C3 shows a code bug: on a local (text) backend holding the malformed
payload `"corrupt"` under a tracked key, `getItem` propagates the
`JSON.parse` `SyntaxError` (its parse call has no `try`), and `isExpired`
— whose parse IS guarded — treats the corrupted entry as permanently
fresh rather than as an absent/expired one.  The claim (and the code's
own doc comments) say malformed payloads behave like misses and never
throw. -/
theorem getItem_throws_on_malformed :
    getItemJS
        (construct "n" ⟨[("n_x", .jstr "corrupt")]⟩ ⟨[], 0⟩
          cacheTypeLocal).1
        ⟨[("n_x", .jstr "corrupt")]⟩ 0 "n_x" = .error () ∧
    isExpired
        (construct "n" ⟨[("n_x", .jstr "corrupt")]⟩ ⟨[], 0⟩
          cacheTypeLocal).1
        ⟨[("n_x", .jstr "corrupt")]⟩ 0 "n_x" = false := by
  constructor
  · rfl
  · decide

/-! ## C6: the sweep skips neighbours of removed keys -/

/-- C6 shows a code bug: `removeExpired` iterates the live array by index
while `removeItem` splices it, so after removing the expired key at index
0 the loop skips the (also expired) key that shifted into index 0.  One
sweep over two adjacent expired keys leaves the second both tracked and
stored, still expired — contradicting the claim (and the method's doc
comment "Removes all expired keys"). -/
theorem removeExpired_skips_adjacent :
    (removeExpired 10000000
        (construct "n" ⟨[("n_a", envelope 0 .jnull),
          ("n_b", envelope 0 .jnull)]⟩ ⟨[], 0⟩).1
        ⟨[("n_a", envelope 0 .jnull),
          ("n_b", envelope 0 .jnull)]⟩).1.storedKeys = ["n_b"] ∧
    isExpired
        (removeExpired 10000000
          (construct "n" ⟨[("n_a", envelope 0 .jnull),
            ("n_b", envelope 0 .jnull)]⟩ ⟨[], 0⟩).1
          ⟨[("n_a", envelope 0 .jnull), ("n_b", envelope 0 .jnull)]⟩).1
        (removeExpired 10000000
          (construct "n" ⟨[("n_a", envelope 0 .jnull),
            ("n_b", envelope 0 .jnull)]⟩ ⟨[], 0⟩).1
          ⟨[("n_a", envelope 0 .jnull), ("n_b", envelope 0 .jnull)]⟩).2
        10000000 "n_b" = true := by
  constructor
  · decide
  · decide

/-! ## C7: construction with an unrecognized backend selector -/

/-- Counterexample to C7 as stated: constructing with the unrecognized
selector `99` does NOT fail — `STORAGE[99]` is `undefined`, the `for..in`
scan over `undefined` iterates zero times, and a fully-formed instance
results.  The failure surfaces only at the first backend operation
(`setItem`/`getItem` throw a `TypeError` on the undefined storage), which
also refutes "only exceptional condition" (see the malformed-payload
throw). -/
theorem construct_invalid_selector_no_throw :
    (construct "n" ⟨[]⟩ ⟨[], 0⟩ 99).1.hasStorage = false ∧
    (construct "n" ⟨[]⟩ ⟨[], 0⟩ 99).1.storedKeys = [] ∧
    (construct "n" ⟨[]⟩ ⟨[], 0⟩ 99).1.expire = some 3600000 ∧
    setItemJS (construct "n" ⟨[]⟩ ⟨[], 0⟩ 99).1 ⟨[]⟩ 0 "k" .jnull
      = .error () ∧
    getItemJS (construct "n" ⟨[]⟩ ⟨[], 0⟩ 99).1 ⟨[]⟩ 0 "k" = .error () := by
  refine ⟨rfl, rfl, rfl, ?_, ?_⟩
  · rfl
  · rfl

/-- C7 (amended): an unrecognized selector leaves `this.storage`
undefined; construction itself succeeds (with an empty key scan and the
ttl assigned), and the configuration error surfaces as a thrown
`TypeError` at the first per-key backend operation instead. -/
theorem construct_invalid_selector_deferred (nsp : String) (store : Store)
    (tm : Timers) (t : Nat) (k : String) (v : JValue) (now : Int)
    (hbad : storageDefined t = false) :
    (construct nsp store tm t).1.hasStorage = false ∧
    (construct nsp store tm t).1.storedKeys = [] ∧
    setItemJS (construct nsp store tm t).1 store now k v = .error () ∧
    getItemJS (construct nsp store tm t).1 store now k = .error () := by
  have hcm : (construct nsp store tm t).1.hasStorage = false := by
    simp only [construct, setExpire]
    split
    · exact hbad
    · exact hbad
  have hkeys : (construct nsp store tm t).1.storedKeys = [] := by
    simp only [construct, setExpire, getStoredKeysF, hbad]
    split
    · simp [hbad]
    · simp [hbad]
  refine ⟨hcm, hkeys, ?_, ?_⟩
  · simp [setItemJS, hcm]
  · simp [getItemJS, hcm]

/-- Witness for the amended C7 at the concrete selector `99`. -/
theorem construct_invalid_selector_deferred_witness :
    (construct "n" ⟨[]⟩ ⟨[], 0⟩ 99).1.hasStorage = false ∧
    (construct "n" ⟨[]⟩ ⟨[], 0⟩ 99).1.storedKeys = [] ∧
    setItemJS (construct "n" ⟨[]⟩ ⟨[], 0⟩ 99).1 ⟨[]⟩ 5 "k" .jnull
      = .error () ∧
    getItemJS (construct "n" ⟨[]⟩ ⟨[], 0⟩ 99).1 ⟨[]⟩ 5 "k" = .error () :=
  construct_invalid_selector_deferred "n" ⟨[]⟩ ⟨[], 0⟩ 99 "k" .jnull 5
    (by decide)

/-! ## Namespace-prefix invariants

Every key an instance tracks or writes carries its `namespace + "_"`
prefix, and no façade operation changes the configuration fields. -/

/-- Derived storage keys carry the namespace prefix. -/
theorem getNamespaceKey_prefixed (cm : CacheManager) (h : nsKeyed cm)
    (k : String) :
    (cm.nsp ++ "_").data.isPrefixOf (getNamespaceKey cm k).data = true := by
  unfold getNamespaceKey
  split
  · exact h k (by assumption)
  · rw [List.isPrefixOf_iff_prefix]
    have hd : (cm.nsp ++ "_" ++ md5 k).data
        = (cm.nsp ++ "_").data ++ (md5 k).data := by
      rw [String.data_append]
    rw [hd]
    exact List.prefix_append _ _

theorem removeItemRaw_shape (cm : CacheManager) (store : Store)
    (k : String) :
    (removeItemRaw cm store k).1 = cm ∨
    (removeItemRaw cm store k).1 = { cm with
      storedKeys := cm.storedKeys.erase (getNamespaceKey cm k) } := by
  simp only [removeItemRaw]
  split
  · exact Or.inr rfl
  · exact Or.inl rfl

/-- `cm'` evolved from `cm` by one façade-internal state change: same
configuration, and namespace-prefixed keys stay namespace-prefixed. -/
def keepsCfg (cm cm' : CacheManager) : Prop :=
  cm'.nsp = cm.nsp ∧ cm'.hasStorage = cm.hasStorage ∧
  cm'.storageType = cm.storageType ∧ (nsKeyed cm → nsKeyed cm')

theorem keepsCfg_refl (cm : CacheManager) : keepsCfg cm cm :=
  ⟨rfl, rfl, rfl, id⟩

theorem keepsCfg_trans {a b c : CacheManager} (h1 : keepsCfg a b)
    (h2 : keepsCfg b c) : keepsCfg a c := by
  obtain ⟨x1, x2, x3, x4⟩ := h1
  obtain ⟨y1, y2, y3, y4⟩ := h2
  exact ⟨y1.trans x1, y2.trans x2, y3.trans x3, fun h => y4 (x4 h)⟩

theorem keepsCfg_setItemRaw (cm : CacheManager) (store : Store) (t0 : Int)
    (k : String) (v : JValue) :
    keepsCfg cm (setItemRaw cm store t0 k v).1 := by
  refine ⟨rfl, rfl, rfl, fun h => ?_⟩
  rw [setItemRaw_fst]
  intro x hx
  rcases List.mem_append.mp hx with hx | hx
  · exact h x hx
  · rw [List.mem_singleton] at hx
    subst hx
    exact getNamespaceKey_prefixed cm h k

theorem keepsCfg_removeItemRaw (cm : CacheManager) (store : Store)
    (k : String) : keepsCfg cm (removeItemRaw cm store k).1 := by
  rcases removeItemRaw_shape cm store k with hs | hs <;> rw [hs]
  · exact keepsCfg_refl cm
  · refine ⟨rfl, rfl, rfl, fun h => ?_⟩
    intro x hx
    exact h x ((List.erase_sublist _ _).subset hx)

theorem keepsCfg_clearRaw (cm : CacheManager) (store : Store) :
    keepsCfg cm (clearRaw cm store).1 := by
  refine ⟨rfl, rfl, rfl, fun h => ?_⟩
  intro x hx
  exact absurd hx (List.not_mem_nil x)

theorem getItemJS_shape (cm : CacheManager) (store : Store) (now : Int)
    (key : String) (out : Option JValue × CacheManager × Store)
    (h : getItemJS cm store now key = .ok out) :
    out.2.1 = cm ∨ out.2.1 = (removeItemRaw cm store key).1 := by
  simp only [getItemJS] at h
  repeat' split at h
  all_goals first
    | exact Except.noConfusion h
    | (injection h with h
       subst h
       first
         | exact Or.inr rfl
         | exact Or.inl rfl)

theorem keepsCfg_getItemJS (cm : CacheManager) (store : Store) (now : Int)
    (key : String) (out : Option JValue × CacheManager × Store)
    (h : getItemJS cm store now key = .ok out) :
    keepsCfg cm out.2.1 := by
  rcases getItemJS_shape cm store now key out h with hs | hs <;> rw [hs]
  · exact keepsCfg_refl cm
  · exact keepsCfg_removeItemRaw cm store key

/-- The re-scan produces only namespace-prefixed keys. -/
theorem keepsCfg_scan (cm : CacheManager) (store : Store) :
    keepsCfg cm { cm with
      storedKeys := getStoredKeysF cm.hasStorage cm.nsp store } ∧
    nsKeyed { cm with
      storedKeys := getStoredKeysF cm.hasStorage cm.nsp store } := by
  have hn : nsKeyed { cm with
      storedKeys := getStoredKeysF cm.hasStorage cm.nsp store } := by
    intro k hk
    have hk' : k ∈ getStoredKeysF cm.hasStorage cm.nsp store := hk
    unfold getStoredKeysF at hk'
    split at hk'
    · exact (List.mem_filter.mp hk').2
    · exact absurd hk' (List.not_mem_nil k)
  exact ⟨⟨rfl, rfl, rfl, fun _ => hn⟩, hn⟩

theorem removeExpiredLoop_keepsCfg : ∀ (fu : Nat) (now : Int)
    (cm : CacheManager) (store : Store) (i : Nat),
    keepsCfg cm (removeExpiredLoop fu now cm store i).1
  | 0, _, cm, store, _ => keepsCfg_refl cm
  | fu + 1, now, cm, store, i => by
    simp only [removeExpiredLoop]
    split
    · split
      · exact keepsCfg_trans (keepsCfg_removeItemRaw cm store _)
          (removeExpiredLoop_keepsCfg fu now _ _ (i + 1))
      · exact removeExpiredLoop_keepsCfg fu now cm store (i + 1)
    · exact keepsCfg_refl cm

theorem getCollectionLoop_keepsCfg : ∀ (fu : Nat) (now : Int)
    (cm : CacheManager) (store : Store) (i : Nat)
    (acc : List (String × Option JValue))
    (out : List (String × Option JValue) × CacheManager × Store),
    getCollectionLoop fu now cm store i acc = .ok out →
    keepsCfg cm out.2.1
  | 0, _, cm, store, _, acc, out, h => by
    injection h with h
    subst h
    exact keepsCfg_refl cm
  | fu + 1, now, cm, store, i, acc, out, h => by
    simp only [getCollectionLoop] at h
    split at h
    · split at h
      · exact getCollectionLoop_keepsCfg fu now cm store (i + 1) acc out h
      · split at h
        · exact Except.noConfusion h
        · rename_i v cm' store' hg
          exact keepsCfg_trans (keepsCfg_getItemJS cm store now _ _ hg)
            (getCollectionLoop_keepsCfg fu now cm' store' (i + 1) _ out h)
    · injection h with h
      subst h
      exact keepsCfg_refl cm

theorem stepOp_keepsCfg (cm : CacheManager) (store : Store)
    (op : CacheOp) : keepsCfg cm (stepOp cm store op).1 := by
  cases op with
  | opSet k v now => exact keepsCfg_setItemRaw cm store now k v
  | opGet k now =>
    simp only [stepOp]
    split
    · rename_i out hg
      exact keepsCfg_getItemJS cm store now k out hg
    · exact keepsCfg_refl cm
  | opRemove k => exact keepsCfg_removeItemRaw cm store k
  | opClear => exact keepsCfg_clearRaw cm store
  | opCollect now =>
    simp only [stepOp]
    split
    · rename_i out hg
      exact keepsCfg_trans (keepsCfg_scan cm store).1
        (getCollectionLoop_keepsCfg _ now _ store 0 [] out hg)
    · exact (keepsCfg_scan cm store).1
  | opSweep now => exact removeExpiredLoop_keepsCfg _ now cm store 0

theorem run1_keepsCfg : ∀ (ops : List CacheOp) (cm : CacheManager)
    (store : Store), keepsCfg cm (run1 cm store ops).1
  | [], cm, store => keepsCfg_refl cm
  | op :: ops, cm, store =>
    keepsCfg_trans (stepOp_keepsCfg cm store op)
      (run1_keepsCfg ops (stepOp cm store op).1 (stepOp cm store op).2)

theorem sysRun_keepsCfg : ∀ (ops : List SysOp) (s : Sys2),
    keepsCfg s.cm1 (sysRun s ops).cm1 ∧ keepsCfg s.cm2 (sysRun s ops).cm2
  | [], s => ⟨keepsCfg_refl _, keepsCfg_refl _⟩
  | op :: ops, s => by
    have ih := sysRun_keepsCfg ops (sysStep s op)
    cases op with
    | fstOp o =>
      refine ⟨keepsCfg_trans ?_ ih.1, keepsCfg_trans ?_ ih.2⟩
      · exact stepOp_keepsCfg s.cm1 s.store o
      · exact keepsCfg_refl _
    | sndOp o =>
      refine ⟨keepsCfg_trans ?_ ih.1, keepsCfg_trans ?_ ih.2⟩
      · exact keepsCfg_refl _
      · exact stepOp_keepsCfg s.cm2 s.store o

/-- Every key in the collection the loop builds is namespace-prefixed. -/
theorem getCollectionLoop_keys : ∀ (fu : Nat) (now : Int)
    (cm : CacheManager) (store : Store) (i : Nat)
    (acc : List (String × Option JValue))
    (out : List (String × Option JValue) × CacheManager × Store),
    getCollectionLoop fu now cm store i acc = .ok out →
    nsKeyed cm →
    (∀ e ∈ acc, (cm.nsp ++ "_").data.isPrefixOf e.1.data = true) →
    ∀ e ∈ out.1, (cm.nsp ++ "_").data.isPrefixOf e.1.data = true
  | 0, _, cm, store, _, acc, out, h, _, hacc => by
    injection h with h
    subst h
    exact hacc
  | fu + 1, now, cm, store, i, acc, out, h, hcm, hacc => by
    simp only [getCollectionLoop] at h
    split at h
    · rename_i hi
      split at h
      · exact getCollectionLoop_keys fu now cm store (i + 1) acc out h
          hcm hacc
      · split at h
        · exact Except.noConfusion h
        · rename_i v cm' store' hg
          obtain ⟨hnsp, -, -, hkeep⟩ :=
            keepsCfg_getItemJS cm store now _ _ hg
          have hacc' : ∀ e ∈ acc ++ [(cm.storedKeys.get ⟨i, hi⟩, v)],
              (cm'.nsp ++ "_").data.isPrefixOf e.1.data = true := by
            intro e he
            rw [hnsp]
            rcases List.mem_append.mp he with he | he
            · exact hacc e he
            · rw [List.mem_singleton] at he
              subst he
              exact hcm _ (List.get_mem cm.storedKeys i hi)
          intro e he
          have hres := getCollectionLoop_keys fu now cm' store' (i + 1)
            _ out h (hkeep hcm) hacc' e he
          rw [hnsp] at hres
          exact hres
    · injection h with h
      subst h
      exact hacc

/-- Every key `getCollection()` reports is namespace-prefixed. -/
theorem getCollectionJS_keys (cm : CacheManager) (store : Store)
    (now : Int) (out : List (String × Option JValue) × CacheManager × Store)
    (h : getCollectionJS cm store now = .ok out) :
    ∀ e ∈ out.1, (cm.nsp ++ "_").data.isPrefixOf e.1.data = true := by
  simp only [getCollectionJS] at h
  intro e he
  exact getCollectionLoop_keys _ now
    { cm with storedKeys := getStoredKeysF cm.hasStorage cm.nsp store }
    store 0 [] out h (keepsCfg_scan cm store).2
    (fun e he => absurd he (List.not_mem_nil e)) e he

/-- Every key the first instance writes along a run is prefixed by its
namespace. -/
theorem writtenKeys1_prefixed : ∀ (ops : List SysOp) (s : Sys2),
    nsKeyed s.cm1 →
    ∀ K ∈ writtenKeys1 s ops,
      (s.cm1.nsp ++ "_").data.isPrefixOf K.data = true
  | [], _, _, K, hK => absurd hK (List.not_mem_nil K)
  | op :: ops, s, h, K, hK => by
    have hstep : keepsCfg s.cm1 (sysStep s op).cm1 := by
      cases op with
      | fstOp o => exact stepOp_keepsCfg s.cm1 s.store o
      | sndOp o => exact keepsCfg_refl s.cm1
    obtain ⟨hnsp, -, -, hkeep⟩ := hstep
    have htail : ∀ K2 ∈ writtenKeys1 (sysStep s op) ops,
        (s.cm1.nsp ++ "_").data.isPrefixOf K2.data = true := by
      intro K2 hK2
      have hres := writtenKeys1_prefixed ops (sysStep s op) (hkeep h) K2 hK2
      rw [hnsp] at hres
      exact hres
    cases op with
    | fstOp o =>
      cases o with
      | opSet k v now =>
        simp only [writtenKeys1] at hK
        rcases List.mem_append.mp hK with hK | hK
        · rw [List.mem_singleton] at hK
          subst hK
          exact getNamespaceKey_prefixed s.cm1 h k
        · exact htail K hK
      | opGet k now =>
        simp only [writtenKeys1, List.nil_append] at hK
        exact htail K hK
      | opRemove k =>
        simp only [writtenKeys1, List.nil_append] at hK
        exact htail K hK
      | opClear =>
        simp only [writtenKeys1, List.nil_append] at hK
        exact htail K hK
      | opCollect now =>
        simp only [writtenKeys1, List.nil_append] at hK
        exact htail K hK
      | opSweep now =>
        simp only [writtenKeys1, List.nil_append] at hK
        exact htail K hK
    | sndOp o =>
      simp only [writtenKeys1, List.nil_append] at hK
      exact htail K hK

/-- Two prefixes of one string are comparable, so mutually-non-prefix
strings cannot prefix the same key. -/
theorem prefix_disjoint {p1 p2 K : List Char}
    (h1 : p1.isPrefixOf K = true) (h2 : p2.isPrefixOf K = true)
    (hn1 : p1.isPrefixOf p2 = false) (hn2 : p2.isPrefixOf p1 = false) :
    False := by
  rw [List.isPrefixOf_iff_prefix] at h1 h2
  rcases List.prefix_or_prefix_of_prefix h1 h2 with hc | hc
  · have := List.isPrefixOf_iff_prefix.mpr hc
    rw [hn1] at this
    exact Bool.noConfusion this
  · have := List.isPrefixOf_iff_prefix.mpr hc
    rw [hn2] at this
    exact Bool.noConfusion this

/-! ## C5: namespace isolation -/

/-- Counterexample to C5 as stated: namespaces `"a_b"` and `"a"` are
distinct, but instance 2's scan test — `key.indexOf(ns + '_') === 0` —
accepts instance 1's key `a_b_<md5>`, so after instance 1 writes, that
key (with its value) shows up in instance 2's `getCollection()`. -/
theorem namespace_isolation_cx :
    writtenKeys1
        ⟨(construct "a_b" ⟨[]⟩ ⟨[], 0⟩).1, (construct "a" ⟨[]⟩ ⟨[], 0⟩).1,
          ⟨[]⟩⟩
        [.fstOp (.opSet "k" (.jnum 1) 0)]
      = [getNamespaceKey (construct "a_b" ⟨[]⟩ ⟨[], 0⟩).1 "k"] ∧
    (getCollectionJS
        (sysRun ⟨(construct "a_b" ⟨[]⟩ ⟨[], 0⟩).1,
          (construct "a" ⟨[]⟩ ⟨[], 0⟩).1, ⟨[]⟩⟩
          [.fstOp (.opSet "k" (.jnum 1) 0)]).cm2
        (sysRun ⟨(construct "a_b" ⟨[]⟩ ⟨[], 0⟩).1,
          (construct "a" ⟨[]⟩ ⟨[], 0⟩).1, ⟨[]⟩⟩
          [.fstOp (.opSet "k" (.jnum 1) 0)]).store 0).toOption.map
        Prod.fst
      = some [(getNamespaceKey (construct "a_b" ⟨[]⟩ ⟨[], 0⟩).1 "k",
          some (.jnum 1))] := by
  constructor
  · rfl
  · rfl

/-- C5 (amended): namespace isolation holds under the condition the scan
test actually enforces — that neither instance's `namespace + "_"` is a
string prefix of the other's.  Then, over any shared medium and any
interleaved operation sequence, no key written by the first instance ever
appears in the second instance's `getCollection()`. -/
theorem namespace_isolation (s : Sys2) (ops : List SysOp) (now : Int)
    (h1 : nsKeyed s.cm1)
    (hp1 : (s.cm1.nsp ++ "_").data.isPrefixOf (s.cm2.nsp ++ "_").data
      = false)
    (hp2 : (s.cm2.nsp ++ "_").data.isPrefixOf (s.cm1.nsp ++ "_").data
      = false)
    (K : String) (hK : K ∈ writtenKeys1 s ops)
    (out : List (String × Option JValue) × CacheManager × Store)
    (hout : getCollectionJS (sysRun s ops).cm2 (sysRun s ops).store now
      = .ok out)
    (v : Option JValue) :
    (K, v) ∉ out.1 := by
  intro hmem
  have hKpre := writtenKeys1_prefixed ops s h1 K hK
  have hcoll := getCollectionJS_keys _ _ now out hout (K, v) hmem
  have hnsp2 : (sysRun s ops).cm2.nsp = s.cm2.nsp :=
    (sysRun_keepsCfg ops s).2.1
  rw [hnsp2] at hcoll
  exact prefix_disjoint hKpre hcoll hp1 hp2

/-- Witness for the amended C5: namespaces `"b"` and `"c"` over a shared
in-memory medium; after instance 1 writes `"k"`, its storage key is not
in instance 2's collection. -/
theorem namespace_isolation_witness :
    (getNamespaceKey (construct "b" ⟨[]⟩ ⟨[], 0⟩).1 "k",
      (none : Option JValue)) ∉
      ((getCollectionJS
        (sysRun ⟨(construct "b" ⟨[]⟩ ⟨[], 0⟩).1,
          (construct "c" ⟨[]⟩ ⟨[], 0⟩).1, ⟨[]⟩⟩
          [.fstOp (.opSet "k" .jnull 0)]).cm2
        (sysRun ⟨(construct "b" ⟨[]⟩ ⟨[], 0⟩).1,
          (construct "c" ⟨[]⟩ ⟨[], 0⟩).1, ⟨[]⟩⟩
          [.fstOp (.opSet "k" .jnull 0)]).store 0).toOption.getD
        ([], (construct "c" ⟨[]⟩ ⟨[], 0⟩).1, ⟨[]⟩)).1 := by
  refine namespace_isolation
    ⟨(construct "b" ⟨[]⟩ ⟨[], 0⟩).1, (construct "c" ⟨[]⟩ ⟨[], 0⟩).1, ⟨[]⟩⟩
    [.fstOp (.opSet "k" .jnull 0)] 0 ?_ (by decide) (by decide) _ ?_ _ ?_
    none
  · intro k hk
    rw [show (construct "b" ⟨[]⟩ ⟨[], 0⟩).1.storedKeys = [] from rfl] at hk
    exact absurd hk (List.not_mem_nil k)
  · exact List.mem_singleton.mpr rfl
  · rfl

/-! ## C9: stability of key derivation -/

/-- Counterexample to C9 as stated: on a fresh instance with namespace
`"a"`, take the logical key `k = "a_" + md5("x")`.  Before any operation,
`deriveKey(k)` hashes `k`; after `setItem("x", …)` the very same string is
now a tracked storage key and `deriveKey(k)` passes it through unchanged
— the derived key for `k` changed mid-lifetime. -/
theorem derivation_unstable_cx :
    getNamespaceKey (run1 cmFresh ⟨[]⟩ [.opSet "x" .jnull 0]).1
        ("a_" ++ md5 "x")
      ≠ getNamespaceKey cmFresh ("a_" ++ md5 "x") := by decide

/-- C9 (amended): for logical keys that do not carry the instance's
namespace prefix — so they can never collide with a tracked storage key —
the derived storage key is the same constant `namespace + "_" + md5(key)`
at every point of the instance's lifetime, whatever operations ran in
between. -/
theorem derivation_stable_unprefixed (cm : CacheManager) (store : Store)
    (ops : List CacheOp) (k : String)
    (hcm : nsKeyed cm)
    (hk : (cm.nsp ++ "_").data.isPrefixOf k.data = false) :
    getNamespaceKey (run1 cm store ops).1 k = cm.nsp ++ "_" ++ md5 k ∧
    getNamespaceKey cm k = cm.nsp ++ "_" ++ md5 k := by
  have base : ∀ cm' : CacheManager, cm'.nsp = cm.nsp → nsKeyed cm' →
      getNamespaceKey cm' k = cm.nsp ++ "_" ++ md5 k := by
    intro cm' hnsp hns
    rw [getNamespaceKey, if_neg, hnsp]
    intro hmem
    have hpre := hns k hmem
    rw [hnsp] at hpre
    rw [hk] at hpre
    exact Bool.noConfusion hpre
  obtain ⟨hnsp, -, -, hkeep⟩ := run1_keepsCfg ops cm store
  exact ⟨base _ hnsp (hkeep hcm), base cm rfl hcm⟩

/-- Witness for the amended C9: key `"zz"` on the fresh `"a"` instance
keeps the same derived key across a `setItem`, a sweep and a collection
scan. -/
theorem derivation_stable_unprefixed_witness :
    getNamespaceKey
        (run1 cmFresh ⟨[]⟩
          [.opSet "x" .jnull 0, .opSweep 99, .opCollect 99]).1 "zz"
      = "a" ++ "_" ++ md5 "zz" ∧
    getNamespaceKey cmFresh "zz" = "a" ++ "_" ++ md5 "zz" :=
  derivation_stable_unprefixed cmFresh ⟨[]⟩
    [.opSet "x" .jnull 0, .opSweep 99, .opCollect 99] "zz"
    (by
      intro k hk
      rw [show cmFresh.storedKeys = [] from rfl] at hk
      exact absurd hk (List.not_mem_nil k))
    (by decide)

end Aofl
